import Mathlib

/-
Verification development for the scripture-lens export/concordance pipeline.

This file gives a shallow embedding, in Lean 4, of the two batch scripts of
the repository:

  * scripts/export_data.py   — exports source/target text and alignment links
    from per-project SQLite databases into a JSON tree plus an index, and
  * scripts/build_concordance.py — builds a lemma concordance over that tree.

Python strings are modelled as lists of characters (PyStr); nullable SQL
columns and nullable JSON fields are modelled as Option PyStr, with Python
truthiness (non-None and non-empty) made explicit.  Python dicts, which
preserve insertion order, are modelled as association lists built in the same
order the code inserts keys.  Python's sorted(), which is a stable sort, is
modelled by a stable insertion sort.  File writes are modelled by returning
the written documents as values.
-/

namespace ScriptureLens

/-- Python strings, modelled as lists of characters. -/
abbrev PyStr := List Char

/-- Coerce a Lean string literal into the PyStr model. -/
def pstr (s : String) : PyStr := s.data

/-- Python whitespace test for str.strip and str.split, restricted to the
ASCII whitespace characters that occur in the data handled here. -/
def pyIsSpace (c : Char) : Bool :=
  c = ' ' || c = '\t' || c = '\n' || c = '\r'

/-- Python str.strip(): drop leading and trailing whitespace. -/
def pyStrip (s : PyStr) : PyStr :=
  ((s.dropWhile pyIsSpace).reverse.dropWhile pyIsSpace).reverse

/-- Split a string at every character satisfying p, keeping empty pieces,
as Python str.split(sep) does for a one-character separator. -/
def pySplitPred (p : Char → Bool) : PyStr → List PyStr
  | [] => [[]]
  | c :: cs =>
    if p c then [] :: pySplitPred p cs
    else
      match pySplitPred p cs with
      | [] => [[c]]
      | t :: ts => (c :: t) :: ts

/-- Python s.split(sep) for a single-character separator sep. -/
def pySplitSep (sep : Char) (s : PyStr) : List PyStr :=
  pySplitPred (fun c => c = sep) s

/-- Python s.split() with no argument: split on whitespace runs and drop the
empty pieces. -/
def pySplitWs (s : PyStr) : List PyStr :=
  (pySplitPred pyIsSpace s).filter (fun t => ¬ t.isEmpty)

/-- Python str.lower on one character, restricted to basic Latin and the
unaccented Greek capitals; every other character maps to itself.  This
models the behaviour of str.lower on the alphabets this pipeline touches. -/
def pyLowerChar (c : Char) : Char :=
  if 'A' ≤ c ∧ c ≤ 'Z' then Char.ofNat (c.toNat + 32)
  else if 'Α' ≤ c ∧ c ≤ 'Ρ' then Char.ofNat (c.toNat + 32)
  else if 'Σ' ≤ c ∧ c ≤ 'Ω' then Char.ofNat (c.toNat + 32)
  else c

/-- Python str.lower, character by character. -/
def pyLower (s : PyStr) : PyStr := s.map pyLowerChar

/-- Python truthiness of an optional string: not None and not empty. -/
def truthy : Option PyStr → Bool
  | none => false
  | some s => ¬ s.isEmpty

/-- Python x or y for optional strings: the string if truthy, else y. -/
def pyOrElse (x : Option PyStr) (y : PyStr) : PyStr :=
  match x with
  | some s => if s.isEmpty then y else s
  | none => y

/-- Lexicographic comparison of strings, as used when sorting file names. -/
def pyStrLt : PyStr → PyStr → Bool
  | [], [] => false
  | [], _ :: _ => true
  | _ :: _, [] => false
  | c :: cs, d :: ds => if c < d then true else if d < c then false else pyStrLt cs ds

/-- Python s.replace(sub, repl) for a non-empty sub (empty sub never occurs
in the code being modelled; it is treated as no match here). -/
def pyReplace (sub repl : PyStr) : PyStr → PyStr
  | [] => []
  | c :: cs =>
    if h : ¬ sub.isEmpty ∧ sub.isPrefixOf (c :: cs) then
      repl ++ pyReplace sub repl ((c :: cs).drop sub.length)
    else
      c :: pyReplace sub repl cs
termination_by s => s.length
decreasing_by
  · simp only [List.length_drop, List.length_cons]
    have hne : sub ≠ [] := by
      intro hx
      exact h.1 (by simp [hx])
    have : 1 ≤ sub.length := by
      cases sub with
      | nil => exact absurd rfl hne
      | cons a as => simp
    omega
  · simp

/-- Python " ".join(xs). -/
def joinSpace (xs : List PyStr) : PyStr := List.intercalate [' '] xs

/-! ### Association lists

Python dicts preserve insertion order; they are modelled by association
lists where a fresh key is appended at the end and an existing key keeps
its position on assignment. -/

/-- Lookup in an association list: value of the first pair with this key. -/
def alistFind [DecidableEq κ] (m : List (κ × β)) (k : κ) : Option β :=
  (m.find? (fun p => p.1 = k)).map (fun p => p.2)

/-- Python k in d. -/
def alistHas [DecidableEq κ] (m : List (κ × β)) (k : κ) : Bool :=
  (alistFind m k).isSome

/-- Insert only when the key is absent (the if-not-in idiom). -/
def alistInsertNew [DecidableEq κ] (m : List (κ × β)) (k : κ) (v : β) : List (κ × β) :=
  if alistHas m k then m else m ++ [(k, v)]

/-- Python d[k] = v: overwrite in place when present, append when fresh. -/
def alistSet [DecidableEq κ] (m : List (κ × β)) (k : κ) (v : β) : List (κ × β) :=
  if alistHas m k then m.map (fun p => if p.1 = k then (k, v) else p)
  else m ++ [(k, v)]

/-- defaultdict-style access and mutation: read the entry (or the default
when absent), transform it, and write it back. -/
def alistUpdate [DecidableEq κ] (m : List (κ × β)) (k : κ) (d : β) (f : β → β) :
    List (κ × β) :=
  alistSet m k (f ((alistFind m k).getD d))

/-- One step of an if-not-in insertion loop that derives an optional key and
a value from each row: rows with no key leave the table unchanged. -/
def insertKeyed [DecidableEq κ] (key : ρ → Option κ) (val : ρ → β)
    (m : List (κ × β)) (r : ρ) : List (κ × β) :=
  match key r with
  | some kk => alistInsertNew m kk (val r)
  | none => m

/-! ### Stable sorting

Python sorted() is stable.  stableSortBy before is a stable insertion
sort: before x y decides that x must be placed strictly before y; ties
(neither strictly before the other) keep their original relative order. -/

/-- Insert x into l, placing it before the first element y with
before x y, hence after every earlier element it ties with. -/
def stableInsert (before : α → α → Bool) (x : α) : List α → List α
  | [] => [x]
  | y :: ys => if before x y then x :: y :: ys else y :: stableInsert before x ys

/-- Stable insertion sort: fold the input in order into a sorted
accumulator. -/
def stableSortBy (before : α → α → Bool) (l : List α) : List α :=
  l.foldl (fun acc x => stableInsert before x acc) []

end ScriptureLens

namespace ScriptureLens.ExportData

/-!
## Embedding of scripts/export_data.py

A words_or_parts row, a links row and a corpora row carry exactly the
columns the script reads.  Nullable TEXT columns are Option PyStr.
-/

/-- One row of the words_or_parts table (the columns the script reads). -/
structure WordRow where
  id : PyStr
  text : Option PyStr
  lemmaField : Option PyStr
  gloss : Option PyStr
  normalized_text : Option PyStr
  side : PyStr
  language_id : PyStr
  required : Nat
  book : Nat
  chapter : Nat
  verse : Nat
  pos : Nat
  after : Option PyStr
deriving DecidableEq, Repr

/-- One row of the links table. -/
structure LinkRow where
  id : PyStr
  sources_text : Option PyStr
  targets_text : Option PyStr
  origin : Option PyStr
  status : Option PyStr
deriving DecidableEq, Repr

/-- One row of the corpora table. -/
structure Corpus where
  cid : PyStr
  name : PyStr
  full_name : Option PyStr
  side : PyStr
  language_id : PyStr
deriving DecidableEq, Repr

/-- An openable project database: the three tables the script reads, plus
the database file name.  A database that raises when first queried is
modelled as (none : Option GoodDb) at the batch level. -/
structure GoodDb where
  filename : PyStr
  corpora : List Corpus
  words : List WordRow
  links : List LinkRow
deriving DecidableEq, Repr

/-- The BIBLE_BOOKS constant of the script. -/
def BIBLE_BOOKS : List (Nat × PyStr) :=
  [(1, pstr "Genesis"), (2, pstr "Exodus"), (3, pstr "Leviticus"), (4, pstr "Numbers"),
   (5, pstr "Deuteronomy"), (6, pstr "Joshua"), (7, pstr "Judges"), (8, pstr "Ruth"),
   (9, pstr "1 Samuel"), (10, pstr "2 Samuel"), (11, pstr "1 Kings"), (12, pstr "2 Kings"),
   (13, pstr "1 Chronicles"), (14, pstr "2 Chronicles"), (15, pstr "Ezra"),
   (16, pstr "Nehemiah"), (17, pstr "Esther"), (18, pstr "Job"), (19, pstr "Psalms"),
   (20, pstr "Proverbs"), (21, pstr "Ecclesiastes"), (22, pstr "Song of Solomon"),
   (23, pstr "Isaiah"), (24, pstr "Jeremiah"), (25, pstr "Lamentations"),
   (26, pstr "Ezekiel"), (27, pstr "Daniel"), (28, pstr "Hosea"), (29, pstr "Joel"),
   (30, pstr "Amos"), (31, pstr "Obadiah"), (32, pstr "Jonah"), (33, pstr "Micah"),
   (34, pstr "Nahum"), (35, pstr "Habakkuk"), (36, pstr "Zephaniah"), (37, pstr "Haggai"),
   (38, pstr "Zechariah"), (39, pstr "Malachi"), (40, pstr "Matthew"), (41, pstr "Mark"),
   (42, pstr "Luke"), (43, pstr "John"), (44, pstr "Acts"), (45, pstr "Romans"),
   (46, pstr "1 Corinthians"), (47, pstr "2 Corinthians"), (48, pstr "Galatians"),
   (49, pstr "Ephesians"), (50, pstr "Philippians"), (51, pstr "Colossians"),
   (52, pstr "1 Thessalonians"), (53, pstr "2 Thessalonians"), (54, pstr "1 Timothy"),
   (55, pstr "2 Timothy"), (56, pstr "Titus"), (57, pstr "Philemon"), (58, pstr "Hebrews"),
   (59, pstr "James"), (60, pstr "1 Peter"), (61, pstr "2 Peter"), (62, pstr "1 John"),
   (63, pstr "2 John"), (64, pstr "3 John"), (65, pstr "Jude"), (66, pstr "Revelation")]

/-- BIBLE_BOOKS.get(b, f-string Book b): the display name of a book. -/
def bookDisplay (b : Nat) : PyStr :=
  (alistFind BIBLE_BOOKS b).getD (pstr "Book " ++ Nat.toDigits 10 b)

/-- BIBLE_BOOKS.get(b, f-string book_b).lower().replace(space, underscore). -/
def bookSlug (b : Nat) : PyStr :=
  (pyLower ((alistFind BIBLE_BOOKS b).getD (pstr "book_" ++ Nat.toDigits 10 b))).map
    (fun c => if c = ' ' then '_' else c)

/-- The zero-padded two-digit book number of the f-string 02d format. -/
def pad2 (n : Nat) : PyStr :=
  if n < 10 then '0' :: Nat.toDigits 10 n else Nat.toDigits 10 n

/-- File name of a per-book JSON document. -/
def bookFileName (b : Nat) : PyStr :=
  pad2 b ++ ('_' :: bookSlug b) ++ pstr ".json"

/-- The hard-coded three-book chapter filter of the export queries. -/
def inExportRange (book chapter : Nat) : Bool :=
  (book = 43 ∧ ([1, 2, 3] : List Nat).contains chapter) ∨
  (book = 45 ∧ ([1, 2, 3, 4, 5, 6, 7, 8] : List Nat).contains chapter) ∨
  (book = 40 ∧ ([5, 6, 7] : List Nat).contains chapter)

/-- ORDER BY position_book, position_chapter, position_verse, position_word. -/
def rowPosLt (a b : WordRow) : Bool :=
  decide (a.book < b.book ∨ (a.book = b.book ∧
    (a.chapter < b.chapter ∨ (a.chapter = b.chapter ∧
      (a.verse < b.verse ∨ (a.verse = b.verse ∧ a.pos < b.pos))))))

/-- Project info extracted by get_project_info. -/
structure ProjectInfo where
  projectId : PyStr
  name : PyStr
  language : PyStr
  corpusId : Option PyStr
deriving DecidableEq, Repr

/-- name.lower().replace(space, hyphen).replace(lparen, empty)
.replace(rparen, empty).replace(comma, empty). -/
def slugify (name : PyStr) : PyStr :=
  ((pyLower name).map (fun c => if c = ' ' then '-' else c)).filter
    (fun c => ¬ (c = '(' ∨ c = ')' ∨ c = ','))

/-- get_project_info: take the first corpora row whose side matches the SQL
pattern target% (SQLite LIKE is ASCII case-insensitive), slugify its short
name; fall back to an id derived from the database file name. -/
def get_project_info (db : GoodDb) : ProjectInfo :=
  match db.corpora.find? (fun c => (pstr "target").isPrefixOf (pyLower c.side)) with
  | some c =>
    { projectId := slugify c.name
      name := pyOrElse c.full_name c.name
      language := c.language_id
      corpusId := some c.cid }
  | none =>
    let db_id := pyReplace (pstr ".sqlite") [] (pyReplace (pstr "clear-aligner-") [] db.filename)
    { projectId := pstr "project-" ++ db_id.take 8
      name := pstr "Project " ++ db_id.take 8
      language := pstr "unknown"
      corpusId := none }

/-! ### Text export (export_source_text / export_target_text) -/

/-- A word as written into a source-side book file. -/
structure OutSrcWord where
  id : PyStr
  text : Option PyStr
  lemmaField : Option PyStr
  gloss : Option PyStr
  after : PyStr
  position : Nat
  required : Bool
deriving DecidableEq, Repr

/-- A word as written into a target-side book file. -/
structure OutTgtWord where
  id : PyStr
  text : Option PyStr
  normalized : Option PyStr
  gloss : PyStr
  after : PyStr
  position : Nat
deriving DecidableEq, Repr

/-- A verse object inside an exported book file. -/
structure OutVerse (w : Type) where
  verse : Nat
  words : List w
deriving DecidableEq, Repr

/-- A chapter object inside an exported book file. -/
structure OutChapter (w : Type) where
  chapter : Nat
  verses : List (OutVerse w)
deriving DecidableEq, Repr

/-- One written source book document, with the folder it lands in. -/
structure SourceBookFile where
  folder : PyStr
  filename : PyStr
  book : Nat
  bookName : PyStr
  language : PyStr
  chapters : List (OutChapter OutSrcWord)
deriving DecidableEq, Repr

/-- One written target book document. -/
structure TargetBookFile where
  filename : PyStr
  book : Nat
  bookName : PyStr
  language : PyStr
  chapters : List (OutChapter OutTgtWord)
deriving DecidableEq, Repr

/-- The in-memory defaultdict tree for one book during text export.  The
bookName field of the Python dict is recomputed from the book number at
output time and is therefore not stored here. -/
structure BookAcc (w : Type) where
  language : PyStr
  chapters : List (Nat × List (Nat × List w))
deriving DecidableEq, Repr

/-- Append one row into the nested book/chapter/verse defaultdict tree.
Each row overwrites the language (last write wins, as in the script). -/
def groupStep (mk : WordRow → w) (acc : List (Nat × BookAcc w)) (r : WordRow) :
    List (Nat × BookAcc w) :=
  alistUpdate acc r.book ⟨[], []⟩ (fun b =>
    { language := r.language_id
      chapters := alistUpdate b.chapters r.chapter [] (fun vm =>
        alistUpdate vm r.verse [] (fun ws => ws ++ [mk r])) })

/-- Emit the chapters of a book with chapters and verses in ascending
numeric key order, as the sorted(keys) loops do. -/
def emitChapters (b : BookAcc w) : List (OutChapter w) :=
  (stableSortBy (fun x y => decide (x.1 < y.1)) b.chapters).map (fun cp =>
    { chapter := cp.1
      verses := (stableSortBy (fun x y => decide (x.1 < y.1)) cp.2).map (fun vp =>
        { verse := vp.1, words := vp.2 }) })

/-- The source-side word written by export_source_text. -/
def mkOutSrcWord (r : WordRow) : OutSrcWord :=
  { id := r.id, text := r.text, lemmaField := r.lemmaField, gloss := r.gloss
    after := (r.after).getD [], position := r.pos, required := r.required ≠ 0 }

/-- The target-side word written by export_target_text. -/
def mkOutTgtWord (r : WordRow) : OutTgtWord :=
  { id := r.id, text := r.text, normalized := r.normalized_text
    gloss := (r.gloss).getD [], after := (r.after).getD [], position := r.pos }

/-- export_source_text: when the shared source corpus was already exported
this run, skip (no write); otherwise derive the per-book files from the
filtered, position-ordered source rows, bucketing by language and dropping
books whose language is neither grc nor heb.  Returns the written files
(none when skipped) and the new value of the sources_exported flag, which
the function always returns as True. -/
def export_source_text (db : GoodDb) (sources_exported : Bool) :
    Option (List SourceBookFile) × Bool :=
  if sources_exported then (none, true)
  else
    let rows := stableSortBy rowPosLt
      (db.words.filter (fun r => r.side = pstr "sources" ∧ inExportRange r.book r.chapter))
    let books := rows.foldl (groupStep mkOutSrcWord) []
    let files := books.filterMap (fun bp =>
      let folder :=
        if bp.2.language = pstr "grc" then some (pstr "sources/greek")
        else if bp.2.language = pstr "heb" then some (pstr "sources/hebrew")
        else none
      folder.map (fun f =>
        { folder := f, filename := bookFileName bp.1, book := bp.1
          bookName := bookDisplay bp.1, language := bp.2.language
          chapters := emitChapters bp.2 }))
    (some files, true)

/-- export_target_text: group the filtered, position-ordered target rows
into per-book files; returns the files and the book count. -/
def export_target_text (db : GoodDb) : List TargetBookFile × Nat :=
  let rows := stableSortBy rowPosLt
    (db.words.filter (fun r =>
      (pstr "target").isPrefixOf (pyLower r.side) ∧ inExportRange r.book r.chapter))
  let books := rows.foldl (groupStep mkOutTgtWord) []
  let files := books.map (fun bp =>
    { filename := bookFileName bp.1, book := bp.1, bookName := bookDisplay bp.1
      language := bp.2.language, chapters := emitChapters bp.2 })
  (files, files.length)

/-! ### Alignment export (export_alignments) -/

/-- The three lookup tables built over the unfiltered source rows. -/
structure Lookups where
  text_to_book : List (PyStr × (Nat × PyStr))
  text_lower_to_book : List (PyStr × (Nat × PyStr))
  lemma_to_book : List (PyStr × (Nat × PyStr))
deriving DecidableEq, Repr

/-- One row of the lookup-building loop: first occurrence wins in each of
the three tables, exactly as the if-not-in guards do. -/
def lookupStep (lk : Lookups) (r : WordRow) : Lookups :=
  let lk :=
    match r.text with
    | some t =>
      if t.isEmpty then lk
      else { lk with text_to_book := alistInsertNew lk.text_to_book t (r.book, r.id) }
    | none => lk
  let lk :=
    match r.text with
    | some t =>
      if t.isEmpty then lk
      else { lk with text_lower_to_book :=
               alistInsertNew lk.text_lower_to_book (pyLower t) (r.book, r.id) }
    | none => lk
  match r.lemmaField with
  | some l =>
    if l.isEmpty then lk
    else { lk with lemma_to_book := alistInsertNew lk.lemma_to_book l (r.book, r.id) }
  | none => lk

/-- Build the three lookup tables from the source rows in table order. -/
def buildLookups (rows : List WordRow) : Lookups :=
  rows.foldl lookupStep ⟨[], [], []⟩

/-- The key a source row contributes to the exact-text table (none when the
text column is falsy). -/
def keyText (r : WordRow) : Option PyStr :=
  match r.text with
  | some t => if t.isEmpty then none else some t
  | none => none

/-- The key a source row contributes to the lowercased-text table. -/
def keyLower (r : WordRow) : Option PyStr :=
  match r.text with
  | some t => if t.isEmpty then none else some (pyLower t)
  | none => none

/-- The key a source row contributes to the lemma table. -/
def keyLemma (r : WordRow) : Option PyStr :=
  match r.lemmaField with
  | some l => if l.isEmpty then none else some l
  | none => none

/-- The tokenization applied to a link text field: comma split (stripped)
takes priority, then whitespace split, else a single stripped token. -/
def tokenize (s : PyStr) : List PyStr :=
  if s.contains ',' then (pySplitSep ',' s).map pyStrip
  else if s.contains ' ' then pySplitWs s
  else [pyStrip s]

/-- Which tier an alignment record resolved through. -/
inductive MatchType where
  | mtExact
  | mtLowercase
  | mtLemma
deriving DecidableEq, Repr

/-- The tiered per-token lookup: exact surface text, then lowercased
surface text, then the lemma table.  Returns the book, word id and tier of
the first tier that hits, none when all three miss. -/
def resolveTier (lk : Lookups) (w : PyStr) : Option (Nat × PyStr × MatchType) :=
  match alistFind lk.text_to_book w with
  | some bw => some (bw.1, bw.2, MatchType.mtExact)
  | none =>
    match alistFind lk.text_lower_to_book (pyLower w) with
    | some bw => some (bw.1, bw.2, MatchType.mtLowercase)
    | none =>
      match alistFind lk.lemma_to_book w with
      | some bw => some (bw.1, bw.2, MatchType.mtLemma)
      | none => none

/-- State of the token loop: the resolved (book, tier) of the first token
that matched any tier (book_num and match_type are assigned together in the
script), and the word ids collected so far. -/
def matchStep (lk : Lookups) (st : Option (Nat × MatchType) × List PyStr) (w : PyStr) :
    Option (Nat × MatchType) × List PyStr :=
  match resolveTier lk w with
  | none => st
  | some bwt =>
    (match st.1 with
     | none => some (bwt.1, bwt.2.2)
     | some x => some x,
     st.2 ++ [bwt.2.1])

/-- The per-link token loop over the tokenized source text. -/
def matchSourceWords (lk : Lookups) (words : List PyStr) :
    Option (Nat × MatchType) × List PyStr :=
  words.foldl (matchStep lk) (none, [])

/-- The book and tier a single token resolves to, if any. -/
def resolveBT (lk : Lookups) (w : PyStr) : Option (Nat × MatchType) :=
  (resolveTier lk w).map (fun t => (t.1, t.2.2))

/-- The source word id a single token resolves to, if any. -/
def resolveWid (lk : Lookups) (w : PyStr) : Option PyStr :=
  (resolveTier lk w).map (fun t => t.2.1)

/-- One exported alignment record. -/
structure AlignRecord where
  id : PyStr
  sourceText : List PyStr
  targetText : List PyStr
  sourceIds : List PyStr
  origin : Option PyStr
  status : Option PyStr
deriving DecidableEq, Repr

/-- The per-tier tallies (the match_stats dict: keys exact, lowercase,
lemma, unmatched). -/
structure MatchStats where
  exactN : Nat
  lowercaseN : Nat
  lemmaN : Nat
  unmatchedN : Nat
deriving DecidableEq, Repr

/-- Increment the tally of the resolving tier. -/
def bumpStat (s : MatchStats) : MatchType → MatchStats
  | MatchType.mtExact => { s with exactN := s.exactN + 1 }
  | MatchType.mtLowercase => { s with lowercaseN := s.lowercaseN + 1 }
  | MatchType.mtLemma => { s with lemmaN := s.lemmaN + 1 }

/-- The books defaultdict(list) plus the counters of export_alignments. -/
structure ExportState where
  books : List (Nat × List AlignRecord)
  total_count : Nat
  stats : MatchStats
deriving DecidableEq, Repr

/-- books[book_num].append(record) on the defaultdict(list). -/
def appendBook (books : List (Nat × List AlignRecord)) (b : Nat) (r : AlignRecord) :
    List (Nat × List AlignRecord) :=
  alistUpdate books b [] (fun recs => recs ++ [r])

/-- The body of the link loop of export_alignments: skip links with falsy
source text, tokenize both sides, run the tiered matcher over the source
tokens, tally unmatched links (dropping them from output), and append
resolved links to their book with the tier tallied. -/
def processLink (lk : Lookups) (st : ExportState) (l : LinkRow) : ExportState :=
  if ¬ truthy l.sources_text then st
  else
    let source_words := tokenize ((l.sources_text).getD [])
    let target_words :=
      if truthy l.targets_text then tokenize ((l.targets_text).getD []) else []
    let m := matchSourceWords lk source_words
    match m.1 with
    | none => { st with stats := { st.stats with unmatchedN := st.stats.unmatchedN + 1 } }
    | some bt =>
      { books := appendBook st.books bt.1
          { id := l.id, sourceText := source_words, targetText := target_words
            sourceIds := m.2, origin := l.origin, status := l.status }
        total_count := st.total_count + 1
        stats := bumpStat st.stats bt.2 }

/-- export_alignments: build the lookup tables over the unfiltered source
rows, then fold the link loop over the links table. -/
def export_alignments (db : GoodDb) : ExportState :=
  let lk := buildLookups (db.words.filter (fun r => r.side = pstr "sources"))
  db.links.foldl (processLink lk) ⟨[], 0, ⟨0, 0, 0, 0⟩⟩

/-- One written alignment book document. -/
structure AlignFileOut where
  filename : PyStr
  book : Nat
  bookName : PyStr
  records : List AlignRecord
deriving DecidableEq, Repr

/-- The files written by the output loop of export_alignments. -/
def mkAlignFiles (books : List (Nat × List AlignRecord)) : List AlignFileOut :=
  books.map (fun bp =>
    { filename := bookFileName bp.1, book := bp.1
      bookName := bookDisplay bp.1, records := bp.2 })

/-! ### The batch driver (main) -/

/-- The stats block of one project in index.json. -/
structure Stats where
  targetBooks : Nat
  alignmentBooks : Nat
  alignmentCount : Nat
deriving DecidableEq, Repr

/-- One entry of the per-project books list of index.json, read back from a
just-written alignment file. -/
structure BookSummary where
  book : Nat
  bookName : PyStr
  alignmentCount : Nat
  file : PyStr
deriving DecidableEq, Repr

/-- One project entry of index.json. -/
structure ProjectEntry where
  name : PyStr
  language : PyStr
  sourceDatabase : PyStr
  targetFolder : PyStr
  alignmentFolder : PyStr
  stats : Stats
  books : List BookSummary
deriving DecidableEq, Repr

/-- The mutable state of the batch loop of main: the shared-source flag,
the source files written so far (at most one batch of them), and the
projects map of the index being built. -/
structure BatchState where
  sources_exported : Bool
  sourceWrites : List (List SourceBookFile)
  projects : List (PyStr × ProjectEntry)
deriving DecidableEq, Repr

/-- Re-read the just-written alignment files of a project, in sorted glob
(file name) order, and summarize each.  This models the book-details loop
of main under a clean output folder: the folder holds exactly the files
this run just wrote. -/
def readBackBooks (files : List AlignFileOut) : List BookSummary :=
  (stableSortBy (fun f g => pyStrLt f.filename g.filename) files).map (fun f =>
    { book := f.book, bookName := f.bookName
      alignmentCount := f.records.length, file := f.filename })

/-- The body of the per-database loop of main for a database that opens and
queries cleanly. -/
def processGood (st : BatchState) (db : GoodDb) : BatchState :=
  let info := get_project_info db
  let project_id := info.projectId
  let srcres := export_source_text db st.sources_exported
  let tgtres := export_target_text db
  let ares := export_alignments db
  let afiles := mkAlignFiles ares.books
  let entry : ProjectEntry :=
    { name := info.name
      language := info.language
      sourceDatabase := db.filename
      targetFolder := pstr "targets/" ++ project_id
      alignmentFolder := pstr "alignments/" ++ project_id
      stats :=
        { targetBooks := tgtres.2
          alignmentBooks := ares.books.length
          alignmentCount := ares.total_count }
      books := readBackBooks afiles }
  { sources_exported := srcres.2
    sourceWrites := st.sourceWrites ++ (match srcres.1 with
      | some w => [w]
      | none => [])
    projects := alistSet st.projects project_id entry }

/-- One iteration of the batch loop.  The loop body is a try/finally with
no except clause: an exception raised while processing one database closes
that connection and then propagates.  A database that raises on its first
query is modelled as none; it contributes an error and no state change. -/
def processOne (st : BatchState) (db : Option GoodDb) : Except PyStr BatchState :=
  match db with
  | none => Except.error (pstr "database error")
  | some g => Except.ok (processGood st g)

/-- The batch loop: process databases in order, stopping at the first
database whose processing raises (the exception propagates out of the
loop).  Returns the state reached and the error, if any. -/
def runBatch : List (Option GoodDb) → BatchState → BatchState × Option PyStr
  | [], st => (st, none)
  | db :: rest, st =>
    match processOne st db with
    | Except.ok st2 => runBatch rest st2
    | Except.error e => (st, some e)

/-- The initial batch state of main. -/
def initialBatch : BatchState := ⟨false, [], []⟩

/-- main: run the batch; when every database processed cleanly the index
(its projects map) is written, otherwise the exception propagates and no
index is written. -/
def mainExport (dbs : List (Option GoodDb)) : Except PyStr (List (PyStr × ProjectEntry)) :=
  match runBatch dbs initialBatch with
  | (st, none) => Except.ok st.projects
  | (_, some e) => Except.error e

end ScriptureLens.ExportData

namespace ScriptureLens.BuildConcordance

open ScriptureLens.ExportData

/-!
## Embedding of scripts/build_concordance.py

The builder is a second pass over the exported JSON tree: it never touches
the database.  Its inputs are the source book files of one testament
(sorted by file name, which embeds the zero-padded book number) and, per
project, the alignment book files of that project.
-/

/-- Which concordance is being built. -/
inductive Testament where
  | nt
  | ot
deriving DecidableEq, Repr

/-- One occurrence of a lemma, as recorded by pass 1. -/
structure ConcOcc where
  book : Nat
  bookName : PyStr
  chapter : Nat
  verse : Nat
  position : Nat
  text : Option PyStr
  wordId : PyStr
  required : Bool
deriving DecidableEq, Repr

/-- One concordance entry during passes 1 and 2.  The renderings field
models the nested dict projectId to (rendering to count); an absent
renderings key of the Python dict is the empty list here. -/
structure ConcEntry where
  lemmaKey : PyStr
  gloss : Option PyStr
  language : PyStr
  frequency : Nat
  occurrences : List ConcOcc
  renderings : List (PyStr × List (PyStr × Nat))
deriving DecidableEq, Repr

/-- One finalized concordance entry: each per-project rendering-count dict
has been converted into a sorted list of (text, count) pairs. -/
structure ConcEntryF where
  lemmaKey : PyStr
  gloss : Option PyStr
  language : PyStr
  frequency : Nat
  occurrences : List ConcOcc
  renderings : List (PyStr × List (PyStr × Nat))
deriving DecidableEq, Repr

/-- The defaultdict default entry of build_source_concordance (lemma and
gloss empty, no occurrences yet). -/
def defaultEntry (lang : PyStr) : ConcEntry :=
  { lemmaKey := [], gloss := some [], language := lang
    frequency := 0, occurrences := [], renderings := [] }

/-- The concordance map: lemma to entry, in insertion order. -/
abbrev Concordance := List (PyStr × ConcEntry)

/-- Pass-1 body for one word: skip words with a falsy lemma, otherwise
upsert the entry, overwrite gloss and language, increment the frequency and
append the occurrence. -/
def processConcWord (lang : PyStr) (bk : Nat) (bkName : PyStr) (ch vs : Nat)
    (conc : Concordance) (w : OutSrcWord) : Concordance :=
  if ¬ truthy w.lemmaField then conc
  else
    let lem := (w.lemmaField).getD []
    let e := (alistFind conc lem).getD (defaultEntry lang)
    alistSet conc lem
      { e with
        lemmaKey := lem
        gloss := w.gloss
        language := lang
        frequency := e.frequency + 1
        occurrences := e.occurrences ++
          [{ book := bk, bookName := bkName, chapter := ch, verse := vs
             position := w.position, text := w.text, wordId := w.id
             required := w.required }] }

/-- Pass-1 body for one source book file. -/
def concAddFile (lang : PyStr) (conc : Concordance) (f : SourceBookFile) : Concordance :=
  f.chapters.foldl (fun conc ch =>
    ch.verses.foldl (fun conc vs =>
      vs.words.foldl (fun conc w =>
        processConcWord lang f.book f.bookName ch.chapter vs.verse conc w) conc) conc) conc

/-- build_source_concordance: fold pass 1 over the source book files of the
testament (the files argument stands for the sorted glob of the testament's
source folder). -/
def build_source_concordance (testament : Testament) (files : List SourceBookFile) :
    Concordance :=
  let lang := match testament with
    | Testament.nt => pstr "grc"
    | Testament.ot => pstr "heb"
  files.foldl (concAddFile lang) []

/-- The reverse index surface text to lemma of pass 2: a plain dict
assignment per occurrence, iterating entries in concordance insertion order
and each entry's occurrences in order. -/
def buildTextToLemma (conc : Concordance) : List (Option PyStr × PyStr) :=
  conc.foldl (fun m p =>
    p.2.occurrences.foldl (fun m occ => alistSet m occ.text p.1) m) []

/-- The flattened (surface text, lemma) pairs of pass 1, in the exact order
the reverse-index loop iterates them. -/
def occPairs (conc : Concordance) : List (Option PyStr × PyStr) :=
  conc.flatMap (fun p => p.2.occurrences.map (fun o => (o.text, p.1)))

/-- The lemma of the LAST occurrence with a given surface text, in reverse-
index iteration order: this is what repeated dict assignment leaves behind. -/
def lastOccLemma (conc : Concordance) (t : Option PyStr) : Option PyStr :=
  ((occPairs conc).reverse.find? (fun q => q.1 = t)).map (fun q => q.2)

/-- An alignment book file as read back by the builder. -/
structure AlignFileIn where
  book : Nat
  records : List AlignRecord
deriving DecidableEq, Repr

/-- Increment one lemma's per-project count of one rendering string.  The
lemma key always exists (it came from buildTextToLemma, whose values are
concordance keys); a missing key would be a KeyError in the script, modelled
here as no change. -/
def bumpRendering (conc : Concordance) (proj lem rendering : PyStr) : Concordance :=
  match alistFind conc lem with
  | none => conc
  | some e =>
    let rmap := (alistFind e.renderings proj).getD []
    let rmap := alistSet rmap rendering (((alistFind rmap rendering).getD 0) + 1)
    alistSet conc lem { e with renderings := alistSet e.renderings proj rmap }

/-- Pass-2 body for one alignment record: skip records with an empty source
or target token list, join the target tokens with one space into the
rendering string, and bump the count for every source token the reverse
index resolves. -/
def processRecord (t2l : List (Option PyStr × PyStr)) (proj : PyStr)
    (conc : Concordance) (r : AlignRecord) : Concordance :=
  if r.sourceText.isEmpty || r.targetText.isEmpty then conc
  else
    let rendering := joinSpace r.targetText
    r.sourceText.foldl (fun conc srcTok =>
      match alistFind t2l (some srcTok) with
      | some lem => bumpRendering conc proj lem rendering
      | none => conc) conc

/-- Pass-2 body for one alignment file: skip files of the other testament,
else process every record. -/
def processAlignFile (testament : Testament) (t2l : List (Option PyStr × PyStr))
    (proj : PyStr) (conc : Concordance) (f : AlignFileIn) : Concordance :=
  if testament = Testament.nt ∧ f.book < 40 then conc
  else if testament = Testament.ot ∧ 40 ≤ f.book then conc
  else f.records.foldl (processRecord t2l proj) conc

/-- Pass-2 body for one project: skip projects with no alignment files,
else initialize an empty per-project renderings dict for every lemma and
process the project's files. -/
def processProject (testament : Testament) (t2l : List (Option PyStr × PyStr))
    (conc : Concordance) (pf : PyStr × List AlignFileIn) : Concordance :=
  if pf.2.isEmpty then conc
  else
    let conc := conc.map (fun p =>
      (p.1, { p.2 with renderings := alistInsertNew p.2.renderings pf.1 [] }))
    pf.2.foldl (processAlignFile testament t2l pf.1) conc

/-- The sorted-list conversion of pass 3 for one per-project rendering
dict: Python sorted with key minus count over the items in insertion
order, i.e. a stable sort placing strictly larger counts first. -/
def sortRenderings (m : List (PyStr × Nat)) : List (PyStr × Nat) :=
  stableSortBy (fun a b => decide (b.2 < a.2)) m

/-- Pass 3 on one entry: convert every per-project rendering dict. -/
def finalizeEntry (e : ConcEntry) : ConcEntryF :=
  { lemmaKey := e.lemmaKey, gloss := e.gloss, language := e.language
    frequency := e.frequency, occurrences := e.occurrences
    renderings := e.renderings.map (fun p => (p.1, sortRenderings p.2)) }

/-- add_renderings: build the reverse index once, fold pass 2 over the
projects of the index in order, then finalize every entry (pass 3). -/
def add_renderings (conc0 : Concordance) (testament : Testament)
    (projects : List (PyStr × List AlignFileIn)) : List (PyStr × ConcEntryF) :=
  let t2l := buildTextToLemma conc0
  let conc := projects.foldl (processProject testament t2l) conc0
  conc.map (fun p => (p.1, finalizeEntry p.2))

/-- save_concordance: sort the whole mapping by descending frequency
(Python sorted, stable) before serializing. -/
def save_concordance (conc : List (PyStr × ConcEntryF)) : List (PyStr × ConcEntryF) :=
  stableSortBy (fun a b => decide (b.2.frequency < a.2.frequency)) conc

/-- The whole concordance build for one testament. -/
def build_concordance (testament : Testament) (files : List SourceBookFile)
    (projects : List (PyStr × List AlignFileIn)) : List (PyStr × ConcEntryF) :=
  save_concordance (add_renderings (build_source_concordance testament files)
    testament projects)

end ScriptureLens.BuildConcordance

namespace ScriptureLens.Demo

open ScriptureLens.ExportData

/-!
Concrete inputs used to exercise the model: a database shaped like the
test fixture of tests/conftest.py (one target corpus row with short name
TestProject and full name Test Project Full Name, two Greek source words in
John 1:1, two English target words, two links), plus small inputs for the
tiered matcher and for the concordance reverse index.
-/

/-- The words_or_parts rows of the fixture database. -/
def demoWords : List WordRow :=
  [{ id := pstr "sources_1", text := some (pstr "λόγος"), lemmaField := some (pstr "λόγος")
     gloss := some (pstr "word"), normalized_text := some (pstr "λόγος")
     side := pstr "sources", language_id := pstr "grc", required := 1
     book := 43, chapter := 1, verse := 1, pos := 1, after := none },
   { id := pstr "sources_2", text := some (pstr "θεός"), lemmaField := some (pstr "θεός")
     gloss := some (pstr "God"), normalized_text := some (pstr "θεός")
     side := pstr "sources", language_id := pstr "grc", required := 1
     book := 43, chapter := 1, verse := 1, pos := 2, after := none },
   { id := pstr "targets_1", text := some (pstr "word"), lemmaField := none
     gloss := none, normalized_text := some (pstr "word")
     side := pstr "targets", language_id := pstr "eng", required := 0
     book := 43, chapter := 1, verse := 1, pos := 1, after := none },
   { id := pstr "targets_2", text := some (pstr "God"), lemmaField := none
     gloss := none, normalized_text := some (pstr "god")
     side := pstr "targets", language_id := pstr "eng", required := 0
     book := 43, chapter := 1, verse := 1, pos := 2, after := none }]

/-- The links rows of the fixture database, with the denormalized text
fields the exporter reads. -/
def demoLinks : List LinkRow :=
  [{ id := pstr "link1", sources_text := some (pstr "λόγος")
     targets_text := some (pstr "word")
     origin := some (pstr "manual"), status := some (pstr "approved") },
   { id := pstr "link2", sources_text := some (pstr "θεός")
     targets_text := some (pstr "God")
     origin := some (pstr "machine"), status := some (pstr "created") }]

/-- The fixture database. -/
def demoDb : GoodDb :=
  { filename := pstr "clear-aligner-test.sqlite"
    corpora := [{ cid := pstr "corp1", name := pstr "TestProject"
                  full_name := some (pstr "Test Project Full Name")
                  side := pstr "targets", language_id := pstr "eng" }]
    words := demoWords
    links := demoLinks }

/-- One source row whose surface text and lemma differ, so that a token
equal to the lemma misses tiers 1 and 2 and hits tier 3. -/
def lemmaRows : List WordRow :=
  [{ id := pstr "w1", text := some (pstr "Word"), lemmaField := some (pstr "logos2")
     gloss := none, normalized_text := none
     side := pstr "sources", language_id := pstr "grc", required := 1
     book := 43, chapter := 1, verse := 1, pos := 1, after := none }]

/-- A link whose single source token matches only on the lemma field. -/
def lemmaLink : LinkRow :=
  { id := pstr "L1", sources_text := some (pstr "logos2")
    targets_text := some (pstr "word")
    origin := some (pstr "manual"), status := some (pstr "approved") }

/-- A two-token phrase link of which only the first token matches. -/
def partialLink : LinkRow :=
  { id := pstr "L2", sources_text := some (pstr "logos2 zzz")
    targets_text := some (pstr "word")
    origin := none, status := none }

/-- An exported source book in which the same surface text x occurs under
lemma a first and lemma b second. -/
def collideFiles : List SourceBookFile :=
  [{ folder := pstr "sources/greek", filename := bookFileName 43
     book := 43, bookName := pstr "John", language := pstr "grc"
     chapters :=
       [{ chapter := 1
          verses :=
            [{ verse := 1
               words :=
                 [{ id := pstr "wa", text := some (pstr "x")
                    lemmaField := some (pstr "a"), gloss := none
                    after := [], position := 1, required := true },
                  { id := pstr "wb", text := some (pstr "x")
                    lemmaField := some (pstr "b"), gloss := none
                    after := [], position := 2, required := true }] }] }] }]

end ScriptureLens.Demo

/-! ## Helper lemmas: association lists -/

namespace ScriptureLens

variable {κ β : Type} [DecidableEq κ]

theorem alistFind_nil (k : κ) : alistFind ([] : List (κ × β)) k = none := rfl

theorem alistFind_cons (p : κ × β) (m : List (κ × β)) (k : κ) :
    alistFind (p :: m) k = if p.1 = k then some p.2 else alistFind m k := by
  by_cases h : p.1 = k
  · rw [alistFind, List.find?_cons_of_pos _ (by simp [h]), if_pos h]
    rfl
  · rw [alistFind, List.find?_cons_of_neg _ (by simp [h]), if_neg h]
    rfl

theorem alistFind_append (m1 m2 : List (κ × β)) (k : κ) :
    alistFind (m1 ++ m2) k =
      match alistFind m1 k with
      | some v => some v
      | none => alistFind m2 k := by
  induction m1 with
  | nil => simp [alistFind_nil]
  | cons p m ih =>
    rw [List.cons_append, alistFind_cons, alistFind_cons]
    by_cases h : p.1 = k <;> simp [h, ih]

theorem alistHas_iff_find (m : List (κ × β)) (k : κ) :
    alistHas m k = true ↔ ∃ v, alistFind m k = some v := by
  cases h : alistFind m k <;> simp [alistHas, h]

theorem alistHas_false_iff (m : List (κ × β)) (k : κ) :
    alistHas m k = false ↔ alistFind m k = none := by
  cases h : alistFind m k <;> simp [alistHas, h]

theorem alistFind_eq_none_iff (m : List (κ × β)) (k : κ) :
    alistFind m k = none ↔ k ∉ m.map Prod.fst := by
  induction m with
  | nil => simp [alistFind_nil]
  | cons p m ih =>
    rw [alistFind_cons, List.map_cons]
    by_cases h : p.1 = k
    · simp [h]
    · simp only [if_neg h, ih, List.mem_cons]
      constructor
      · intro hn hm
        rcases hm with he | hm
        · exact h he.symm
        · exact hn hm
      · intro hn hm
        exact hn (Or.inr hm)

theorem alistFind_map_set (m : List (κ × β)) (k : κ) (v : β) (k2 : κ) :
    alistFind (m.map (fun p => if p.1 = k then (k, v) else p)) k2 =
      if k2 = k then (if alistHas m k then some v else none) else alistFind m k2 := by
  induction m with
  | nil => by_cases h : k2 = k <;> simp [alistFind_nil, alistHas, h]
  | cons p m ih =>
    rw [List.map_cons, alistFind_cons, alistFind_cons]
    by_cases hpk : p.1 = k
    · by_cases hk : k2 = k
      · have h1 : ((k, v) : κ × β).1 = k2 := hk.symm
        have h2 : alistHas (p :: m) k = true := by
          rw [alistHas_iff_find]
          exact ⟨p.2, by rw [alistFind_cons, if_pos hpk]⟩
        simp [hpk, hk, h1, h2]
      · have h1 : ¬ ((k, v) : κ × β).1 = k2 := fun h => hk h.symm
        have h2 : ¬ p.1 = k2 := fun h => hk ((hpk.symm.trans h).symm)
        simp [hpk, hk, h1, h2, ih]
    · by_cases hk : k2 = k
      · subst hk
        have h2 : alistHas (p :: m) k2 = alistHas m k2 := by
          simp [alistHas, alistFind_cons, if_neg hpk]
        simp [hpk, ih, h2]
      · by_cases hpk2 : p.1 = k2
        · simp [hpk, hpk2, hk]
        · simp [hpk, hpk2, hk, ih]

theorem alistFind_set (m : List (κ × β)) (k : κ) (v : β) (k2 : κ) :
    alistFind (alistSet m k v) k2 = if k2 = k then some v else alistFind m k2 := by
  unfold alistSet
  by_cases hhas : alistHas m k
  · rw [if_pos hhas, alistFind_map_set]
    by_cases hk : k2 = k <;> simp [hk, hhas]
  · rw [if_neg hhas, alistFind_append]
    by_cases hk : k2 = k
    · subst hk
      rw [(alistHas_false_iff m k2).mp (Bool.of_not_eq_true hhas)]
      simp [alistFind_cons]
    · cases hf : alistFind m k2 with
      | some w => simp [hf, hk]
      | none =>
        have hk2 : ¬ k = k2 := fun h => hk h.symm
        simp [hf, hk, hk2, alistFind_cons, alistFind_nil]

theorem alistFind_insertNew (m : List (κ × β)) (k : κ) (v : β) (k2 : κ) :
    alistFind (alistInsertNew m k v) k2 =
      match alistFind m k2 with
      | some w => some w
      | none => if k2 = k then some v else none := by
  unfold alistInsertNew
  by_cases hhas : alistHas m k
  · rw [if_pos hhas]
    cases hf : alistFind m k2 with
    | some w => simp
    | none =>
      by_cases hk : k2 = k
      · subst hk
        rw [alistHas, hf] at hhas
        simp at hhas
      · simp [hk]
  · rw [if_neg hhas, alistFind_append]
    cases hf : alistFind m k2 with
    | some w => simp
    | none =>
      by_cases hk : k2 = k
      · subst hk
        simp [alistFind_cons, alistFind_nil]
      · have hk2 : ¬ k = k2 := fun h => hk h.symm
        simp [alistFind_cons, alistFind_nil, hk, hk2]

theorem mem_alistSet {m : List (κ × β)} {k : κ} {v : β} {p : κ × β}
    (hp : p ∈ alistSet m k v) : p ∈ m ∨ p = (k, v) := by
  unfold alistSet at hp
  by_cases hhas : alistHas m k
  · rw [if_pos hhas] at hp
    rcases List.mem_map.mp hp with ⟨q, hq, hqe⟩
    by_cases hqk : q.1 = k
    · right
      rw [if_pos hqk] at hqe
      exact hqe.symm
    · left
      rw [if_neg hqk] at hqe
      exact hqe ▸ hq
  · rw [if_neg hhas] at hp
    rcases List.mem_append.mp hp with h | h
    · exact Or.inl h
    · right
      simpa using h

theorem alistFind_mem {m : List (κ × β)} {k : κ} {v : β}
    (h : alistFind m k = some v) : (k, v) ∈ m := by
  unfold alistFind at h
  cases hf : m.find? (fun q => q.1 = k) with
  | none => rw [hf] at h; simp at h
  | some q =>
    rw [hf] at h
    have hq : q.1 = k := by simpa using List.find?_some hf
    have hv : q.2 = v := by simpa using h
    have hmem := List.mem_of_find?_eq_some hf
    have : q = (k, v) := Prod.ext hq hv
    exact this ▸ hmem

theorem keys_alistSet (m : List (κ × β)) (k : κ) (v : β) :
    (alistSet m k v).map Prod.fst =
      if alistHas m k then m.map Prod.fst else m.map Prod.fst ++ [k] := by
  unfold alistSet
  by_cases hhas : alistHas m k
  · rw [if_pos hhas, if_pos hhas, List.map_map]
    refine List.map_congr_left ?_
    intro p _
    by_cases hpk : p.1 = k <;> simp [hpk, Function.comp]
  · rw [if_neg hhas, if_neg hhas]
    simp

theorem nodup_keys_alistSet {m : List (κ × β)} (hnd : (m.map Prod.fst).Nodup)
    (k : κ) (v : β) : ((alistSet m k v).map Prod.fst).Nodup := by
  rw [keys_alistSet]
  by_cases hhas : alistHas m k
  · rwa [if_pos hhas]
  · rw [if_neg hhas, List.nodup_append]
    refine ⟨hnd, List.nodup_singleton k, ?_⟩
    intro a ha hak
    have : a = k := by simpa using hak
    subst this
    exact ((alistFind_eq_none_iff m a).mp
      ((alistHas_false_iff m a).mp (Bool.of_not_eq_true hhas))) ha

theorem map_set_id_of_not_mem {m : List (κ × β)} {k : κ} (v : β)
    (h : k ∉ m.map Prod.fst) :
    m.map (fun p => if p.1 = k then (k, v) else p) = m := by
  induction m with
  | nil => rfl
  | cons q m ih =>
    have h1 : ¬ q.1 = k := by
      intro hq
      exact h (by rw [List.map_cons, ← hq]; exact List.mem_cons_self _ _)
    have h2 : k ∉ m.map Prod.fst := by
      intro hm
      exact h (by rw [List.map_cons]; exact List.mem_cons_of_mem _ hm)
    rw [List.map_cons, if_neg h1, ih h2]

theorem sum_len_alistSet_snoc {γ : Type} {m : List (κ × List γ)} {k : κ}
    {recs : List γ} (r : γ) (hnd : (m.map Prod.fst).Nodup)
    (hf : alistFind m k = some recs) :
    ((alistSet m k (recs ++ [r])).map (fun p => p.2.length)).sum
      = (m.map (fun p => p.2.length)).sum + 1 := by
  induction m with
  | nil => simp [alistFind_nil] at hf
  | cons p m ih =>
    have hhas : alistHas (p :: m) k = true := by
      rw [alistHas_iff_find]
      exact ⟨recs, hf⟩
    rw [alistFind_cons] at hf
    unfold alistSet
    rw [if_pos hhas, List.map_cons]
    rw [List.map_cons, List.nodup_cons] at hnd
    by_cases hpk : p.1 = k
    · rw [if_pos hpk] at hf
      have hrecs : p.2 = recs := Option.some.inj hf
      rw [if_pos hpk]
      have hmap : m.map (fun q => if q.1 = k then (k, recs ++ [r]) else q) = m :=
        map_set_id_of_not_mem _ (hpk ▸ hnd.1)
      rw [hmap]
      simp only [List.map_cons, List.sum_cons, ← hrecs, List.length_append,
        List.length_cons, List.length_nil]
      omega
    · rw [if_neg hpk] at hf
      have hhm : alistHas m k = true := by
        rw [alistHas_iff_find]
        exact ⟨recs, hf⟩
      have hrec := ih hnd.2 hf
      unfold alistSet at hrec
      rw [if_pos hhm] at hrec
      rw [if_neg hpk]
      simp only [List.map_cons, List.sum_cons]
      rw [hrec]
      omega

theorem sum_len_alistSet_fresh {γ : Type} {m : List (κ × List γ)} {k : κ}
    (v : List γ) (hf : alistFind m k = none) :
    ((alistSet m k v).map (fun p => p.2.length)).sum
      = (m.map (fun p => p.2.length)).sum + v.length := by
  unfold alistSet
  rw [if_neg (by simp [alistHas, hf])]
  simp

end ScriptureLens

/-! ## Helper lemmas: stable sorting -/

namespace ScriptureLens

variable {α : Type}

theorem mem_stableInsert (before : α → α → Bool) (x : α) (l : List α) (a : α) :
    a ∈ stableInsert before x l ↔ a = x ∨ a ∈ l := by
  induction l with
  | nil => simp [stableInsert]
  | cons y ys ih =>
    unfold stableInsert
    by_cases h : before x y = true
    · rw [if_pos h]
      simp only [List.mem_cons]
    · rw [if_neg h]
      simp only [List.mem_cons, ih]
      tauto

theorem stableInsert_perm (before : α → α → Bool) (x : α) (l : List α) :
    (stableInsert before x l).Perm (x :: l) := by
  induction l with
  | nil => simp [stableInsert]
  | cons y ys ih =>
    unfold stableInsert
    by_cases h : before x y
    · simp [h]
    · simp only [if_neg h]
      exact (ih.cons y).trans (List.Perm.swap x y ys)

theorem stableSortBy_perm (before : α → α → Bool) (l : List α) :
    (stableSortBy before l).Perm l := by
  have main : ∀ (l acc : List α),
      (l.foldl (fun acc x => stableInsert before x acc) acc).Perm (acc ++ l) := by
    intro l
    induction l with
    | nil => intro acc; simp
    | cons x xs ih =>
      intro acc
      rw [List.foldl_cons]
      refine (ih _).trans ?_
      refine ((stableInsert_perm before x acc).append_right xs).trans ?_
      rw [List.cons_append]
      exact List.perm_middle.symm
  simpa using main l []

theorem sorted_stableInsert_keyDesc (key : α → Nat) (x : α) {l : List α}
    (hl : l.Sorted (fun a b => key b ≤ key a)) :
    (stableInsert (fun a b => decide (key b < key a)) x l).Sorted
      (fun a b => key b ≤ key a) := by
  induction l with
  | nil => simp [stableInsert]
  | cons y ys ih =>
    rw [List.sorted_cons] at hl
    unfold stableInsert
    by_cases h : key y < key x
    · simp only [decide_eq_true_eq, h, if_true]
      rw [List.sorted_cons]
      refine ⟨?_, List.sorted_cons.mpr hl⟩
      intro b hb
      rcases List.mem_cons.mp hb with rfl | hb2
      · omega
      · have := hl.1 b hb2
        omega
    · simp only [decide_eq_true_eq, h, if_false]
      rw [List.sorted_cons]
      refine ⟨?_, ih hl.2⟩
      intro b hb
      rcases (mem_stableInsert _ x ys b).mp hb with rfl | hb2
      · omega
      · exact hl.1 b hb2

theorem sorted_stableSortBy_keyDesc (key : α → Nat) (l : List α) :
    (stableSortBy (fun a b => decide (key b < key a)) l).Sorted
      (fun a b => key b ≤ key a) := by
  have main : ∀ (l acc : List α), acc.Sorted (fun a b => key b ≤ key a) →
      (l.foldl (fun acc x =>
        stableInsert (fun a b => decide (key b < key a)) x acc) acc).Sorted
        (fun a b => key b ≤ key a) := by
    intro l
    induction l with
    | nil => intro acc h; simpa using h
    | cons x xs ih =>
      intro acc hacc
      rw [List.foldl_cons]
      exact ih _ (sorted_stableInsert_keyDesc key x hacc)
  exact main l [] (by simp)

theorem filter_stableInsert_ne (key : α → Nat) (x : α) (l : List α) (c : Nat)
    (hx : ¬ key x = c) :
    (stableInsert (fun a b => decide (key b < key a)) x l).filter
        (fun p => key p = c)
      = l.filter (fun p => key p = c) := by
  induction l with
  | nil => simp [stableInsert, hx]
  | cons y ys ih =>
    unfold stableInsert
    by_cases h : key y < key x
    · simp [h, List.filter_cons, hx]
    · simp only [decide_eq_true_eq, h, if_false]
      rw [List.filter_cons, List.filter_cons, ih]

theorem filter_stableInsert_eq (key : α → Nat) (x : α) (l : List α) (c : Nat)
    (hs : l.Sorted (fun a b => key b ≤ key a)) (hx : key x = c) :
    (stableInsert (fun a b => decide (key b < key a)) x l).filter
        (fun p => key p = c)
      = l.filter (fun p => key p = c) ++ [x] := by
  induction l with
  | nil => simp [stableInsert, hx]
  | cons y ys ih =>
    rw [List.sorted_cons] at hs
    unfold stableInsert
    by_cases h : key y < key x
    · have hfilt : (y :: ys).filter (fun p => key p = c) = [] := by
        rw [List.filter_eq_nil_iff]
        intro a ha
        rcases List.mem_cons.mp ha with rfl | ha2
        · simp
          omega
        · have := hs.1 a ha2
          simp
          omega
      simp only [decide_eq_true_eq, h, if_true]
      rw [List.filter_cons, if_pos (by simp [hx]), hfilt]
      simp
    · have hins := ih hs.2
      simp only [decide_eq_true_eq, h, if_false]
      by_cases hy : key y = c
      · rw [List.filter_cons, if_pos (by simp [hy]), List.filter_cons,
          if_pos (by simp [hy]), hins]
        simp
      · rw [List.filter_cons, if_neg (by simp [hy]), List.filter_cons,
          if_neg (by simp [hy]), hins]

theorem alistFind_foldl_insertKeyed {ρ κ β : Type} [DecidableEq κ]
    (key : ρ → Option κ) (val : ρ → β) (rows : List ρ) (m0 : List (κ × β)) (k : κ) :
    alistFind (rows.foldl (insertKeyed key val) m0) k
    = match alistFind m0 k with
      | some v => some v
      | none => (rows.find? (fun r => key r = some k)).map val := by
  induction rows generalizing m0 with
  | nil => cases hf : alistFind m0 k <;> simp [hf]
  | cons r rest ih =>
    rw [List.foldl_cons, ih]
    unfold insertKeyed
    cases hk : key r with
    | none =>
      rw [List.find?_cons_of_neg _ (by simp [hk])]
    | some kk =>
      simp only [hk]
      rw [alistFind_insertNew]
      cases hf : alistFind m0 k with
      | some v => simp
      | none =>
        by_cases hkk : k = kk
        · subst hkk
          rw [List.find?_cons_of_pos _ (by simp [hk])]
          simp
        · rw [List.find?_cons_of_neg _ (by simp [hk]; exact fun h => hkk h.symm)]
          simp [hkk]

theorem filter_stableSortBy_key (key : α → Nat) (l : List α) (c : Nat) :
    (stableSortBy (fun a b => decide (key b < key a)) l).filter (fun p => key p = c)
      = l.filter (fun p => key p = c) := by
  have main : ∀ (l acc : List α), acc.Sorted (fun a b => key b ≤ key a) →
      (l.foldl (fun acc x =>
          stableInsert (fun a b => decide (key b < key a)) x acc) acc).filter
          (fun p => key p = c)
        = acc.filter (fun p => key p = c) ++ l.filter (fun p => key p = c) := by
    intro l
    induction l with
    | nil =>
      intro acc _
      simp
    | cons x xs ih =>
      intro acc hacc
      rw [List.foldl_cons, ih _ (sorted_stableInsert_keyDesc key x hacc)]
      by_cases hx : key x = c
      · rw [filter_stableInsert_eq key x acc c hacc hx, List.filter_cons,
          if_pos (by simp [hx]), List.append_assoc]
        simp
      · rw [filter_stableInsert_ne key x acc c hx, List.filter_cons,
          if_neg (by simp [hx])]
  simpa using main l [] (by simp)

end ScriptureLens

/-! ## Helper lemmas: folds -/

namespace ScriptureLens

theorem foldl_preserve {σ ρ : Type} {P : σ → Prop} {f : σ → ρ → σ}
    (hstep : ∀ s r, P s → P (f s r)) :
    ∀ (l : List ρ) (s : σ), P s → P (l.foldl f s) := by
  intro l
  induction l with
  | nil => intro s h; exact h
  | cons r rest ih =>
    intro s h
    rw [List.foldl_cons]
    exact ih _ (hstep s r h)

theorem find?_append_first {α : Type} (l1 l2 : List α) (p : α → Bool) :
    (l1 ++ l2).find? p =
      match l1.find? p with
      | some a => some a
      | none => l2.find? p := by
  induction l1 with
  | nil => simp
  | cons a l ih =>
    by_cases h : p a
    · rw [List.cons_append, List.find?_cons_of_pos _ h, List.find?_cons_of_pos _ h]
    · rw [List.cons_append, List.find?_cons_of_neg _ h, List.find?_cons_of_neg _ h, ih]

theorem foldl_flatMap {σ α γ : Type} (g : α → List γ) (f : σ → γ → σ)
    (l : List α) (s : σ) :
    (l.flatMap g).foldl f s = l.foldl (fun s a => (g a).foldl f s) s := by
  induction l generalizing s with
  | nil => rfl
  | cons a rest ih =>
    rw [List.flatMap_cons, List.foldl_append, List.foldl_cons, ih]

theorem alistFind_foldl_set {κ β : Type} [DecidableEq κ]
    (pairs : List (κ × β)) (m0 : List (κ × β)) (k : κ) :
    alistFind (pairs.foldl (fun m q => alistSet m q.1 q.2) m0) k =
      match pairs.reverse.find? (fun q => q.1 = k) with
      | some q => some q.2
      | none => alistFind m0 k := by
  induction pairs generalizing m0 with
  | nil => simp
  | cons q rest ih =>
    rw [List.foldl_cons, ih, List.reverse_cons, find?_append_first]
    cases hf : rest.reverse.find? (fun q => q.1 = k) with
    | some a => simp
    | none =>
      by_cases hq : q.1 = k
      · rw [List.find?_cons_of_pos _ (by simp [hq])]
        simp [alistFind_set, hq]
      · rw [List.find?_cons_of_neg _ (by simp [hq])]
        have hq2 : ¬ k = q.1 := fun h => hq h.symm
        simp [alistFind_set, hq2]

theorem alistFind_map_values {κ β γ : Type} [DecidableEq κ]
    (g : β → γ) (m : List (κ × β)) (k : κ) :
    alistFind (m.map (fun p => (p.1, g p.2))) k = (alistFind m k).map g := by
  induction m with
  | nil => simp [alistFind_nil]
  | cons p m ih =>
    rw [List.map_cons, alistFind_cons, alistFind_cons]
    by_cases h : p.1 = k <;> simp [h, ih]

end ScriptureLens

/-! ## Helper lemmas: the alignment matcher -/

namespace ScriptureLens.ExportData

theorem lookupStep_text (lk : Lookups) (r : WordRow) :
    (lookupStep lk r).text_to_book =
      insertKeyed keyText (fun r => (r.book, r.id)) lk.text_to_book r := by
  unfold lookupStep insertKeyed keyText
  cases r.text with
  | none =>
    cases r.lemmaField with
    | none => rfl
    | some l => by_cases hl : l.isEmpty <;> simp [hl]
  | some t =>
    by_cases ht : t.isEmpty
    · cases r.lemmaField with
      | none => simp [ht]
      | some l => by_cases hl : l.isEmpty <;> simp [ht, hl]
    · cases r.lemmaField with
      | none => simp [ht]
      | some l => by_cases hl : l.isEmpty <;> simp [ht, hl]

theorem lookupStep_lower (lk : Lookups) (r : WordRow) :
    (lookupStep lk r).text_lower_to_book =
      insertKeyed keyLower (fun r => (r.book, r.id)) lk.text_lower_to_book r := by
  unfold lookupStep insertKeyed keyLower
  cases r.text with
  | none =>
    cases r.lemmaField with
    | none => rfl
    | some l => by_cases hl : l.isEmpty <;> simp [hl]
  | some t =>
    by_cases ht : t.isEmpty
    · cases r.lemmaField with
      | none => simp [ht]
      | some l => by_cases hl : l.isEmpty <;> simp [ht, hl]
    · cases r.lemmaField with
      | none => simp [ht]
      | some l => by_cases hl : l.isEmpty <;> simp [ht, hl]

theorem lookupStep_lemma (lk : Lookups) (r : WordRow) :
    (lookupStep lk r).lemma_to_book =
      insertKeyed keyLemma (fun r => (r.book, r.id)) lk.lemma_to_book r := by
  unfold lookupStep insertKeyed keyLemma
  cases r.text with
  | none =>
    cases r.lemmaField with
    | none => rfl
    | some l => by_cases hl : l.isEmpty <;> simp [hl]
  | some t =>
    by_cases ht : t.isEmpty
    · cases r.lemmaField with
      | none => simp [ht]
      | some l => by_cases hl : l.isEmpty <;> simp [ht, hl]
    · cases r.lemmaField with
      | none => simp [ht]
      | some l => by_cases hl : l.isEmpty <;> simp [ht, hl]

theorem buildLookups_text_eq (rows : List WordRow) (lk0 : Lookups) :
    (rows.foldl lookupStep lk0).text_to_book
      = rows.foldl (insertKeyed keyText (fun r => (r.book, r.id))) lk0.text_to_book := by
  induction rows generalizing lk0 with
  | nil => rfl
  | cons r rest ih =>
    rw [List.foldl_cons, List.foldl_cons, ih, lookupStep_text]

theorem buildLookups_lower_eq (rows : List WordRow) (lk0 : Lookups) :
    (rows.foldl lookupStep lk0).text_lower_to_book
      = rows.foldl (insertKeyed keyLower (fun r => (r.book, r.id))) lk0.text_lower_to_book := by
  induction rows generalizing lk0 with
  | nil => rfl
  | cons r rest ih =>
    rw [List.foldl_cons, List.foldl_cons, ih, lookupStep_lower]

theorem buildLookups_lemma_eq (rows : List WordRow) (lk0 : Lookups) :
    (rows.foldl lookupStep lk0).lemma_to_book
      = rows.foldl (insertKeyed keyLemma (fun r => (r.book, r.id))) lk0.lemma_to_book := by
  induction rows generalizing lk0 with
  | nil => rfl
  | cons r rest ih =>
    rw [List.foldl_cons, List.foldl_cons, ih, lookupStep_lemma]

theorem text_table_first (rows : List WordRow) (k : PyStr) :
    alistFind (buildLookups rows).text_to_book k
      = (rows.find? (fun r => keyText r = some k)).map (fun r => (r.book, r.id)) := by
  unfold buildLookups
  rw [buildLookups_text_eq]
  have h := alistFind_foldl_insertKeyed keyText (fun r => (r.book, r.id)) rows [] k
  simp only [alistFind_nil] at h
  exact h

theorem lower_table_first (rows : List WordRow) (k : PyStr) :
    alistFind (buildLookups rows).text_lower_to_book k
      = (rows.find? (fun r => keyLower r = some k)).map (fun r => (r.book, r.id)) := by
  unfold buildLookups
  rw [buildLookups_lower_eq]
  have h := alistFind_foldl_insertKeyed keyLower (fun r => (r.book, r.id)) rows [] k
  simp only [alistFind_nil] at h
  exact h

theorem lemma_table_first (rows : List WordRow) (k : PyStr) :
    alistFind (buildLookups rows).lemma_to_book k
      = (rows.find? (fun r => keyLemma r = some k)).map (fun r => (r.book, r.id)) := by
  unfold buildLookups
  rw [buildLookups_lemma_eq]
  have h := alistFind_foldl_insertKeyed keyLemma (fun r => (r.book, r.id)) rows [] k
  simp only [alistFind_nil] at h
  exact h

theorem matchSourceWords_spec (lk : Lookups) (ws : List PyStr) :
    (matchSourceWords lk ws).1 = ws.findSome? (resolveBT lk) ∧
    (matchSourceWords lk ws).2 = ws.filterMap (resolveWid lk) := by
  have main : ∀ (ws : List PyStr) (st : Option (Nat × MatchType) × List PyStr),
      (ws.foldl (matchStep lk) st).1
          = (match st.1 with
             | some x => some x
             | none => ws.findSome? (resolveBT lk)) ∧
      (ws.foldl (matchStep lk) st).2 = st.2 ++ ws.filterMap (resolveWid lk) := by
    intro ws
    induction ws with
    | nil =>
      intro st
      constructor
      · cases hst : st.1 <;> simp [hst]
      · simp
    | cons w ws ih =>
      intro st
      rw [List.foldl_cons]
      refine ⟨?_, ?_⟩
      · rw [(ih _).1]
        unfold matchStep resolveBT
        cases hr : resolveTier lk w with
        | none =>
          cases hst : st.1 <;> simp [List.findSome?_cons, hr, hst]
        | some bwt =>
          cases hst : st.1 <;> simp [List.findSome?_cons, hr, hst]
      · rw [(ih _).2]
        unfold matchStep resolveWid
        cases hr : resolveTier lk w with
        | none => simp [List.filterMap_cons, hr]
        | some bwt => cases hst : st.1 <;> simp [List.filterMap_cons, hr, hst]
  have h := main ws (none, [])
  simpa using h

theorem processLink_skip (lk : Lookups) (st : ExportState) (l : LinkRow)
    (h : truthy l.sources_text = false) : processLink lk st l = st := by
  unfold processLink
  rw [if_pos (by simp [h])]

theorem processLink_unmatched (lk : Lookups) (st : ExportState) (l : LinkRow)
    (h1 : truthy l.sources_text = true)
    (h2 : (tokenize ((l.sources_text).getD [])).findSome? (resolveBT lk) = none) :
    processLink lk st l =
      { st with stats := { st.stats with unmatchedN := st.stats.unmatchedN + 1 } } := by
  unfold processLink
  rw [if_neg (by simp [h1])]
  have hm := (matchSourceWords_spec lk (tokenize ((l.sources_text).getD []))).1
  rw [h2] at hm
  simp only [hm]

theorem processLink_matched (lk : Lookups) (st : ExportState) (l : LinkRow)
    (b : Nat) (t : MatchType) (h1 : truthy l.sources_text = true)
    (h2 : (tokenize ((l.sources_text).getD [])).findSome? (resolveBT lk) = some (b, t)) :
    processLink lk st l =
      { books := appendBook st.books b
          { id := l.id
            sourceText := tokenize ((l.sources_text).getD [])
            targetText :=
              if truthy l.targets_text then tokenize ((l.targets_text).getD []) else []
            sourceIds := (tokenize ((l.sources_text).getD [])).filterMap (resolveWid lk)
            origin := l.origin
            status := l.status }
        total_count := st.total_count + 1
        stats := bumpStat st.stats t } := by
  unfold processLink
  rw [if_neg (by simp [h1])]
  have hm := matchSourceWords_spec lk (tokenize ((l.sources_text).getD []))
  rw [h2] at hm
  simp only [hm.1, hm.2]

theorem appendBook_inv (books : List (Nat × List AlignRecord)) (b : Nat)
    (r : AlignRecord) (hnd : (books.map Prod.fst).Nodup) :
    ((appendBook books b r).map Prod.fst).Nodup ∧
    ((appendBook books b r).map (fun p => p.2.length)).sum
      = (books.map (fun p => p.2.length)).sum + 1 := by
  unfold appendBook alistUpdate
  cases hf : alistFind books b with
  | some recs =>
    refine ⟨nodup_keys_alistSet hnd _ _, ?_⟩
    simp only [Option.getD_some]
    exact sum_len_alistSet_snoc r hnd hf
  | none =>
    refine ⟨nodup_keys_alistSet hnd _ _, ?_⟩
    simpa using sum_len_alistSet_fresh [r] hf

theorem processLink_inv (lk : Lookups) (l : LinkRow) (st : ExportState)
    (hnd : (st.books.map Prod.fst).Nodup)
    (hsum : (st.books.map (fun p => p.2.length)).sum = st.total_count) :
    (((processLink lk st l).books.map Prod.fst).Nodup) ∧
    (((processLink lk st l).books.map (fun p => p.2.length)).sum
        = (processLink lk st l).total_count) := by
  unfold processLink
  by_cases h1 : truthy l.sources_text = true
  · rw [if_neg (not_not_intro h1)]
    cases hm : (matchSourceWords lk (tokenize ((l.sources_text).getD []))).1 with
    | none =>
      simp only [hm]
      exact ⟨hnd, hsum⟩
    | some bt =>
      simp only [hm]
      have h := appendBook_inv st.books bt.1
        { id := l.id
          sourceText := tokenize ((l.sources_text).getD [])
          targetText :=
            if truthy l.targets_text then tokenize ((l.targets_text).getD []) else []
          sourceIds := (matchSourceWords lk (tokenize ((l.sources_text).getD []))).2
          origin := l.origin
          status := l.status } hnd
      exact ⟨h.1, by rw [h.2, hsum]⟩
  · rw [if_pos h1]
    exact ⟨hnd, hsum⟩

theorem export_alignments_inv (db : GoodDb) :
    (((export_alignments db).books.map Prod.fst).Nodup) ∧
    ((export_alignments db).books.map (fun p => p.2.length)).sum
      = (export_alignments db).total_count := by
  unfold export_alignments
  refine foldl_preserve (P := fun st : ExportState =>
    ((st.books.map Prod.fst).Nodup) ∧
    ((st.books.map (fun p => p.2.length)).sum = st.total_count))
    ?_ db.links ⟨[], 0, ⟨0, 0, 0, 0⟩⟩ (by constructor <;> simp)
  intro st l h
  exact processLink_inv _ l st h.1 h.2

theorem mkAlignFiles_lens (books : List (Nat × List AlignRecord)) :
    ((mkAlignFiles books).map (fun f => f.records.length)).sum
      = (books.map (fun p => p.2.length)).sum := by
  unfold mkAlignFiles
  rw [List.map_map]
  rfl

theorem readBackBooks_sum (files : List AlignFileOut) :
    ((readBackBooks files).map (fun b => b.alignmentCount)).sum
      = (files.map (fun f => f.records.length)).sum := by
  unfold readBackBooks
  rw [List.map_map]
  have hperm := (stableSortBy_perm
    (fun f g => pyStrLt f.filename g.filename) files).map (fun f => f.records.length)
  exact hperm.sum_eq

theorem runBatch_absorb (dbs : List (Option GoodDb)) (st : BatchState)
    (h : st.sources_exported = true) :
    (runBatch dbs st).1.sourceWrites = st.sourceWrites ∧
    (runBatch dbs st).1.sources_exported = true := by
  induction dbs generalizing st with
  | nil => exact ⟨rfl, h⟩
  | cons db rest ih =>
    cases db with
    | none => exact ⟨rfl, h⟩
    | some g =>
      have hsrc : export_source_text g st.sources_exported = (none, true) := by
        rw [h]
        rfl
      unfold runBatch processOne
      have h2 : (processGood st g).sources_exported = true := by
        unfold processGood
        rw [hsrc]
      have h3 : (processGood st g).sourceWrites = st.sourceWrites := by
        unfold processGood
        rw [hsrc]
        simp
      have := ih (processGood st g) h2
      exact ⟨by rw [this.1, h3], this.2⟩

theorem runBatch_writes_le_one (dbs : List (Option GoodDb)) :
    (runBatch dbs initialBatch).1.sourceWrites.length ≤ 1 := by
  have main : ∀ (dbs : List (Option GoodDb)) (st : BatchState),
      st.sources_exported = false → st.sourceWrites = [] →
      (runBatch dbs st).1.sourceWrites.length ≤ 1 := by
    intro dbs
    induction dbs with
    | nil =>
      intro st _ hw
      simp [runBatch, hw]
    | cons db rest ih =>
      intro st hf hw
      cases db with
      | none => simp [runBatch, processOne, hw]
      | some g =>
        have hsrc : export_source_text g st.sources_exported =
            (some ((export_source_text g false).1.getD []), true) := by
          rw [hf]
          rfl
        have h2 : (processGood st g).sources_exported = true := by
          unfold processGood
          rw [hsrc]
        have h3 : (processGood st g).sourceWrites
            = [((export_source_text g false).1.getD [])] := by
          unfold processGood
          rw [hsrc, hw]
          simp
        unfold runBatch processOne
        have habs := runBatch_absorb rest (processGood st g) h2
        rw [habs.1, h3]
        simp
  exact main dbs initialBatch rfl rfl

theorem runBatch_error_of_bad (pre rest : List (Option GoodDb)) (st : BatchState)
    (hpre : ∀ d ∈ pre, d.isSome = true) :
    (runBatch (pre ++ none :: rest) st).2 = some (pstr "database error") := by
  induction pre generalizing st with
  | nil => rfl
  | cons d pre ih =>
    cases d with
    | none =>
      have := hpre none (List.mem_cons_self _ _)
      simp at this
    | some g =>
      rw [List.cons_append]
      unfold runBatch processOne
      exact ih _ (fun d hd => hpre d (List.mem_cons_of_mem _ hd))

end ScriptureLens.ExportData

/-! ## Helper lemmas: the concordance builder -/

namespace ScriptureLens.BuildConcordance

open ScriptureLens.ExportData

theorem processConcWord_inv (lang : PyStr) (bk : Nat) (bkName : PyStr) (ch vs : Nat)
    (conc : Concordance) (w : OutSrcWord)
    (h : ∀ p ∈ conc, p.2.frequency = p.2.occurrences.length ∧ 0 < p.2.frequency) :
    ∀ p ∈ processConcWord lang bk bkName ch vs conc w,
      p.2.frequency = p.2.occurrences.length ∧ 0 < p.2.frequency := by
  unfold processConcWord
  by_cases hw : truthy w.lemmaField = true
  · rw [if_neg (not_not_intro hw)]
    intro p hp
    simp only at hp
    rcases mem_alistSet hp with hold | hnewp
    · exact h p hold
    · rw [hnewp]
      cases hfind : alistFind conc ((w.lemmaField).getD []) with
      | some e0 =>
        have he0 := h _ (alistFind_mem hfind)
        simp only at he0
        refine ⟨?_, ?_⟩
        · simp [hfind, he0.1]
        · simp [hfind]
      | none =>
        simp [hfind, defaultEntry]
  · rw [if_pos hw]
    exact h

theorem concAddFile_inv (lang : PyStr) (f : SourceBookFile) (conc : Concordance)
    (h : ∀ p ∈ conc, p.2.frequency = p.2.occurrences.length ∧ 0 < p.2.frequency) :
    ∀ p ∈ concAddFile lang conc f,
      p.2.frequency = p.2.occurrences.length ∧ 0 < p.2.frequency := by
  unfold concAddFile
  refine foldl_preserve (P := fun conc : Concordance =>
    ∀ p ∈ conc, p.2.frequency = p.2.occurrences.length ∧ 0 < p.2.frequency)
    ?_ f.chapters conc h
  intro conc ch hc
  refine foldl_preserve (P := fun conc : Concordance =>
    ∀ p ∈ conc, p.2.frequency = p.2.occurrences.length ∧ 0 < p.2.frequency)
    ?_ ch.verses conc hc
  intro conc vs hv
  refine foldl_preserve (P := fun conc : Concordance =>
    ∀ p ∈ conc, p.2.frequency = p.2.occurrences.length ∧ 0 < p.2.frequency)
    ?_ vs.words conc hv
  intro conc w hw
  exact processConcWord_inv lang f.book f.bookName ch.chapter vs.verse conc w hw

theorem build_source_concordance_inv (testament : Testament)
    (files : List SourceBookFile) :
    ∀ p ∈ build_source_concordance testament files,
      p.2.frequency = p.2.occurrences.length ∧ 0 < p.2.frequency := by
  cases testament
  all_goals
    unfold build_source_concordance
    refine foldl_preserve (P := fun conc : Concordance =>
      ∀ p ∈ conc, p.2.frequency = p.2.occurrences.length ∧ 0 < p.2.frequency)
      ?_ files [] (fun p hp => nomatch hp)
    intro conc f h
    exact concAddFile_inv _ f conc h

theorem bumpRendering_inv (conc : Concordance) (proj lem rendering : PyStr)
    (h : ∀ p ∈ conc, p.2.frequency = p.2.occurrences.length ∧ 0 < p.2.frequency) :
    ∀ p ∈ bumpRendering conc proj lem rendering,
      p.2.frequency = p.2.occurrences.length ∧ 0 < p.2.frequency := by
  unfold bumpRendering
  cases hf : alistFind conc lem with
  | none => exact h
  | some e =>
    intro p hp
    simp only at hp
    rcases mem_alistSet hp with hold | hnewp
    · exact h p hold
    · have he := h _ (alistFind_mem hf)
      simp only at he
      rw [hnewp]
      exact ⟨he.1, he.2⟩

theorem processRecord_inv (t2l : List (Option PyStr × PyStr)) (proj : PyStr)
    (conc : Concordance) (r : AlignRecord)
    (h : ∀ p ∈ conc, p.2.frequency = p.2.occurrences.length ∧ 0 < p.2.frequency) :
    ∀ p ∈ processRecord t2l proj conc r,
      p.2.frequency = p.2.occurrences.length ∧ 0 < p.2.frequency := by
  unfold processRecord
  by_cases hskip : (r.sourceText.isEmpty || r.targetText.isEmpty) = true
  · rw [if_pos hskip]
    exact h
  · rw [if_neg hskip]
    refine foldl_preserve (P := fun conc : Concordance =>
      ∀ p ∈ conc, p.2.frequency = p.2.occurrences.length ∧ 0 < p.2.frequency)
      ?_ r.sourceText conc h
    intro conc tok hc
    cases hf : alistFind t2l (some tok) with
    | none => exact hc
    | some lem => exact bumpRendering_inv conc proj lem _ hc

theorem processAlignFile_inv (testament : Testament)
    (t2l : List (Option PyStr × PyStr)) (proj : PyStr) (conc : Concordance)
    (f : AlignFileIn)
    (h : ∀ p ∈ conc, p.2.frequency = p.2.occurrences.length ∧ 0 < p.2.frequency) :
    ∀ p ∈ processAlignFile testament t2l proj conc f,
      p.2.frequency = p.2.occurrences.length ∧ 0 < p.2.frequency := by
  unfold processAlignFile
  by_cases h1 : testament = Testament.nt ∧ f.book < 40
  · rw [if_pos h1]
    exact h
  · rw [if_neg h1]
    by_cases h2 : testament = Testament.ot ∧ 40 ≤ f.book
    · rw [if_pos h2]
      exact h
    · rw [if_neg h2]
      refine foldl_preserve (P := fun conc : Concordance =>
        ∀ p ∈ conc, p.2.frequency = p.2.occurrences.length ∧ 0 < p.2.frequency)
        ?_ f.records conc h
      intro conc r hc
      exact processRecord_inv t2l proj conc r hc

theorem processProject_inv (testament : Testament)
    (t2l : List (Option PyStr × PyStr)) (conc : Concordance)
    (pf : PyStr × List AlignFileIn)
    (h : ∀ p ∈ conc, p.2.frequency = p.2.occurrences.length ∧ 0 < p.2.frequency) :
    ∀ p ∈ processProject testament t2l conc pf,
      p.2.frequency = p.2.occurrences.length ∧ 0 < p.2.frequency := by
  unfold processProject
  by_cases hskip : pf.2.isEmpty = true
  · rw [if_pos hskip]
    exact h
  · rw [if_neg hskip]
    refine foldl_preserve (P := fun conc : Concordance =>
      ∀ p ∈ conc, p.2.frequency = p.2.occurrences.length ∧ 0 < p.2.frequency)
      ?_ pf.2 _ ?_
    · intro conc f hc
      exact processAlignFile_inv testament t2l pf.1 conc f hc
    · intro p hp
      rcases List.mem_map.mp hp with ⟨q, hq, hqe⟩
      rw [← hqe]
      exact h q hq

theorem add_renderings_inv (conc0 : Concordance) (testament : Testament)
    (projects : List (PyStr × List AlignFileIn))
    (h : ∀ p ∈ conc0, p.2.frequency = p.2.occurrences.length ∧ 0 < p.2.frequency) :
    ∀ p ∈ add_renderings conc0 testament projects,
      p.2.frequency = p.2.occurrences.length ∧ 0 < p.2.frequency := by
  unfold add_renderings
  intro p hp
  simp only at hp
  rcases List.mem_map.mp hp with ⟨q, hq, hqe⟩
  have hq2 := foldl_preserve
    (P := fun conc : Concordance =>
      ∀ p ∈ conc, p.2.frequency = p.2.occurrences.length ∧ 0 < p.2.frequency)
    (fun conc pf hc => processProject_inv testament (buildTextToLemma conc0) conc pf hc)
    projects conc0 h q hq
  rw [← hqe]
  exact hq2

theorem build_concordance_inv (testament : Testament) (files : List SourceBookFile)
    (projects : List (PyStr × List AlignFileIn)) :
    ∀ p ∈ build_concordance testament files projects,
      p.2.frequency = p.2.occurrences.length ∧ 0 < p.2.frequency := by
  unfold build_concordance save_concordance
  intro p hp
  have hperm := stableSortBy_perm
    (fun a b : PyStr × ConcEntryF => decide (b.2.frequency < a.2.frequency))
    (add_renderings (build_source_concordance testament files) testament projects)
  have hp2 := hperm.mem_iff.mp hp
  exact add_renderings_inv _ testament projects
    (build_source_concordance_inv testament files) p hp2

theorem buildTextToLemma_eq (conc : Concordance) :
    buildTextToLemma conc
      = (occPairs conc).foldl (fun m q => alistSet m q.1 q.2) [] := by
  unfold buildTextToLemma occPairs
  rw [foldl_flatMap]
  congr 1
  funext m p
  rw [List.foldl_map]

theorem buildTextToLemma_lookup (conc : Concordance) (t : Option PyStr) :
    alistFind (buildTextToLemma conc) t = lastOccLemma conc t := by
  rw [buildTextToLemma_eq, alistFind_foldl_set]
  unfold lastOccLemma
  cases hf : (occPairs conc).reverse.find? (fun q => q.1 = t) with
  | some q => simp [hf]
  | none => simp [hf, alistFind_nil]

theorem finalizeEntry_renderings (e : ConcEntry) (proj : PyStr) :
    alistFind (finalizeEntry e).renderings proj
      = (alistFind e.renderings proj).map sortRenderings := by
  unfold finalizeEntry
  exact alistFind_map_values sortRenderings e.renderings proj

theorem sortRenderings_sorted (m : List (PyStr × Nat)) :
    (sortRenderings m).Sorted (fun a b => b.2 ≤ a.2) :=
  sorted_stableSortBy_keyDesc (fun p => p.2) m

theorem sortRenderings_stable (m : List (PyStr × Nat)) (c : Nat) :
    (sortRenderings m).filter (fun p => p.2 = c) = m.filter (fun p => p.2 = c) :=
  filter_stableSortBy_key (fun p => p.2) m c

end ScriptureLens.BuildConcordance

/-! ## Additional matcher lemmas used by the claims -/

namespace ScriptureLens.ExportData

theorem resolve_none_iff (lk : Lookups) (ws : List PyStr) :
    ws.findSome? (resolveBT lk) = none ↔ ws.filterMap (resolveWid lk) = [] := by
  induction ws with
  | nil => simp
  | cons w ws ih =>
    cases hr : resolveTier lk w <;>
      simp [List.findSome?_cons, List.filterMap_cons, resolveBT, resolveWid, hr, ih]

theorem export_source_text_skip (db : GoodDb) :
    export_source_text db true = (none, true) := rfl

theorem export_source_text_flag (db : GoodDb) (flag : Bool) :
    (export_source_text db flag).2 = true := by
  cases flag <;> rfl

theorem runBatch_projects_sum (dbs : List (Option GoodDb)) (st : BatchState)
    (hst : ∀ p ∈ st.projects,
      p.2.stats.alignmentCount = (p.2.books.map (fun b => b.alignmentCount)).sum) :
    ∀ p ∈ (runBatch dbs st).1.projects,
      p.2.stats.alignmentCount = (p.2.books.map (fun b => b.alignmentCount)).sum := by
  induction dbs generalizing st with
  | nil => exact hst
  | cons db rest ih =>
    cases db with
    | none => exact hst
    | some g =>
      simp only [runBatch, processOne]
      refine ih (processGood st g) ?_
      intro p hp
      unfold processGood at hp
      simp only at hp
      rcases mem_alistSet hp with hold | hnewp
      · exact hst p hold
      · rw [hnewp]
        show (export_alignments g).total_count
          = ((readBackBooks (mkAlignFiles (export_alignments g).books)).map
              (fun b => b.alignmentCount)).sum
        rw [readBackBooks_sum, mkAlignFiles_lens]
        exact (export_alignments_inv g).2.symm

end ScriptureLens.ExportData

/-! ## The claims -/

namespace ScriptureLens.Claims

open ScriptureLens.ExportData ScriptureLens.BuildConcordance ScriptureLens.Demo

/-- C1: for every alignment link with non-empty source text, each source
token is matched by trying tiers in order (exact surface text, then
case-insensitive surface text, then lemma), over lookup tables that map
each key to the first occurrence seen in corpus order; the link's resolved
book number and its tallied tier come from the first source token, in token
order, that matched any tier; a link in which no token matches any tier is
excluded from output and counted in the unmatched tally; and a link whose
token matches only on the lemma field is exported and tallied under the
lemma tier, not under unmatched. -/
theorem c1_tiered_matching (rows : List WordRow) (st : ExportState) (l : LinkRow)
    (h1 : truthy l.sources_text = true) :
    (∀ k, alistFind (buildLookups rows).text_to_book k
        = (rows.find? (fun r => keyText r = some k)).map (fun r => (r.book, r.id))) ∧
    (∀ k, alistFind (buildLookups rows).text_lower_to_book k
        = (rows.find? (fun r => keyLower r = some k)).map (fun r => (r.book, r.id))) ∧
    (∀ k, alistFind (buildLookups rows).lemma_to_book k
        = (rows.find? (fun r => keyLemma r = some k)).map (fun r => (r.book, r.id))) ∧
    (matchSourceWords (buildLookups rows) (tokenize ((l.sources_text).getD []))).1
      = (tokenize ((l.sources_text).getD [])).findSome? (resolveBT (buildLookups rows)) ∧
    ((tokenize ((l.sources_text).getD [])).findSome? (resolveBT (buildLookups rows)) = none →
      processLink (buildLookups rows) st l
        = { st with stats := { st.stats with unmatchedN := st.stats.unmatchedN + 1 } }) ∧
    (∀ b, (tokenize ((l.sources_text).getD [])).findSome? (resolveBT (buildLookups rows))
        = some (b, MatchType.mtLemma) →
      processLink (buildLookups rows) st l
        = { books := appendBook st.books b
              { id := l.id,
                sourceText := tokenize ((l.sources_text).getD []),
                targetText := (if truthy l.targets_text then
                    tokenize ((l.targets_text).getD []) else []),
                sourceIds := (tokenize ((l.sources_text).getD [])).filterMap
                  (resolveWid (buildLookups rows)),
                origin := l.origin,
                status := l.status },
            total_count := st.total_count + 1,
            stats := { st.stats with lemmaN := st.stats.lemmaN + 1 } }) := by
  refine ⟨text_table_first rows, lower_table_first rows, lemma_table_first rows,
    (matchSourceWords_spec _ _).1, processLink_unmatched _ st l h1, ?_⟩
  intro b hb
  exact processLink_matched (buildLookups rows) st l b MatchType.mtLemma h1 hb

theorem c1_tiered_matching_witness :
    truthy (lemmaLink.sources_text) = true ∧
    (processLink (buildLookups lemmaRows) ⟨[], 0, ⟨0, 0, 0, 0⟩⟩ lemmaLink).stats.lemmaN = 1 ∧
    (processLink (buildLookups lemmaRows) ⟨[], 0, ⟨0, 0, 0, 0⟩⟩ lemmaLink).stats.unmatchedN = 0 ∧
    (processLink (buildLookups lemmaRows) ⟨[], 0, ⟨0, 0, 0, 0⟩⟩ lemmaLink).total_count = 1 := by
  have h := c1_tiered_matching lemmaRows ⟨[], 0, ⟨0, 0, 0, 0⟩⟩ lemmaLink (by decide)
  have h2 := h.2.2.2.2.2 43 (by decide)
  rw [h2]
  exact ⟨by decide, rfl, rfl, rfl⟩

/-- C2: tokenization of link text follows a fixed precedence, first match
wins: a string containing a comma is split on commas with each piece
stripped; otherwise a string containing a space is split on whitespace;
otherwise it is a single stripped token.  The three round-trip examples
hold, and comma splitting always takes priority over space splitting. -/
theorem c2_tokenize_precedence :
    tokenize (pstr "λόγος,θεός") = [pstr "λόγος", pstr "θεός"] ∧
    tokenize (pstr "υἱὸς ἀνθρώπου") = [pstr "υἱὸς", pstr "ἀνθρώπου"] ∧
    tokenize (pstr "λόγος") = [pstr "λόγος"] ∧
    (∀ s : PyStr, s.contains ',' = true →
      tokenize s = (pySplitSep ',' s).map pyStrip) ∧
    (∀ s : PyStr, s.contains ',' = false → s.contains ' ' = true →
      tokenize s = pySplitWs s) ∧
    (∀ s : PyStr, s.contains ',' = false → s.contains ' ' = false →
      tokenize s = [pyStrip s]) := by
  refine ⟨by decide, by decide, by decide, ?_, ?_, ?_⟩
  · intro s h
    unfold tokenize
    rw [if_pos h]
  · intro s h1 h2
    unfold tokenize
    rw [if_neg (by rw [h1]; simp), if_pos h2]
  · intro s h1 h2
    unfold tokenize
    rw [if_neg (by rw [h1]; simp), if_neg (by rw [h2]; simp)]

theorem c2_tokenize_precedence_witness :
    ((pstr "a,b c").contains ',' = true ∧
      tokenize (pstr "a,b c") = (pySplitSep ',' (pstr "a,b c")).map pyStrip) ∧
    tokenize (pstr "a,b c") = [pstr "a", pstr "b c"] := by
  refine ⟨⟨by decide, c2_tokenize_precedence.2.2.2.1 (pstr "a,b c") (by decide)⟩, by decide⟩

/-- C10: for a resolving link the exported record carries one source word
id per matched token, collected in token order; tokens that match no tier
are silently omitted (the filterMap) without affecting any tally; a
partially matched link is still exported with all its tokens as sourceText,
so its sourceIds can be strictly shorter; and a link is dropped exactly
when no token at all resolves. -/
theorem c10_partial_links (rows : List WordRow) (st : ExportState) (l : LinkRow)
    (h1 : truthy l.sources_text = true) :
    (matchSourceWords (buildLookups rows) (tokenize ((l.sources_text).getD []))).2
      = (tokenize ((l.sources_text).getD [])).filterMap (resolveWid (buildLookups rows)) ∧
    ((tokenize ((l.sources_text).getD [])).findSome? (resolveBT (buildLookups rows)) = none
      ↔ (tokenize ((l.sources_text).getD [])).filterMap (resolveWid (buildLookups rows)) = []) ∧
    (∀ b t, (tokenize ((l.sources_text).getD [])).findSome? (resolveBT (buildLookups rows))
        = some (b, t) →
      processLink (buildLookups rows) st l
        = { books := appendBook st.books b
              { id := l.id,
                sourceText := tokenize ((l.sources_text).getD []),
                targetText := (if truthy l.targets_text then
                    tokenize ((l.targets_text).getD []) else []),
                sourceIds := (tokenize ((l.sources_text).getD [])).filterMap
                  (resolveWid (buildLookups rows)),
                origin := l.origin,
                status := l.status },
            total_count := st.total_count + 1,
            stats := bumpStat st.stats t }) := by
  refine ⟨(matchSourceWords_spec _ _).2, resolve_none_iff _ _, ?_⟩
  intro b t hbt
  exact processLink_matched (buildLookups rows) st l b t h1 hbt

theorem c10_partial_links_witness :
    truthy (partialLink.sources_text) = true ∧
    (matchSourceWords (buildLookups lemmaRows) (tokenize ((partialLink.sources_text).getD []))).2
      = (tokenize ((partialLink.sources_text).getD [])).filterMap
          (resolveWid (buildLookups lemmaRows)) ∧
    ((tokenize ((partialLink.sources_text).getD [])).filterMap
        (resolveWid (buildLookups lemmaRows))).length = 1 ∧
    (tokenize ((partialLink.sources_text).getD [])).length = 2 ∧
    (processLink (buildLookups lemmaRows) ⟨[], 0, ⟨0, 0, 0, 0⟩⟩ partialLink).total_count = 1 := by
  have h := c10_partial_links lemmaRows ⟨[], 0, ⟨0, 0, 0, 0⟩⟩ partialLink (by decide)
  refine ⟨by decide, h.1, by decide, by decide, ?_⟩
  rw [h.2.2 43 MatchType.mtLemma (by decide)]

/-- C4 as stated is false: the reverse index of the rendering-attachment
pass resolves a surface-form collision last-write-wins, not first-write-
wins.  With surface text x indexed under lemma a first and lemma b second,
the index maps x to b, not to a. -/
theorem c4_counterexample :
    alistFind (buildTextToLemma (build_source_concordance Testament.nt collideFiles))
        (some (pstr "x")) = some (pstr "b") ∧
    ¬ (pstr "b" = pstr "a") := by
  exact ⟨by decide, by decide⟩

/-- C4 amended: the reverse index from source surface text to lemma is
resolved LAST-write-wins: a surface form that occurs under two lemmas maps
to the lemma of its last occurrence in iteration order (entries in
concordance insertion order, each entry's occurrences in order). -/
theorem c4_last_write_wins (conc : Concordance) (t : Option PyStr) :
    alistFind (buildTextToLemma conc) t = lastOccLemma conc t :=
  buildTextToLemma_lookup conc t

/-- C5: for every lemma and project, finalization converts the per-project
rendering counts with one stable descending-by-count sort: the resulting
list is sorted by descending count, renderings with equal counts keep their
insertion order (the filter characterization), and on the counts word 3,
God 3, sky 1 with God inserted before word the result is God, word, sky. -/
theorem c5_rendering_sort :
    (∀ (e : ConcEntry) (proj : PyStr),
      alistFind (finalizeEntry e).renderings proj
        = (alistFind e.renderings proj).map sortRenderings) ∧
    (∀ m : List (PyStr × Nat),
      (sortRenderings m).Sorted (fun a b => b.2 ≤ a.2)) ∧
    (∀ (m : List (PyStr × Nat)) (c : Nat),
      (sortRenderings m).filter (fun p => p.2 = c) = m.filter (fun p => p.2 = c)) ∧
    sortRenderings [(pstr "God", 3), (pstr "word", 3), (pstr "sky", 1)]
      = [(pstr "God", 3), (pstr "word", 3), (pstr "sky", 1)] ∧
    sortRenderings [(pstr "sky", 1), (pstr "God", 3), (pstr "word", 3)]
      = [(pstr "God", 3), (pstr "word", 3), (pstr "sky", 1)] := by
  exact ⟨finalizeEntry_renderings, sortRenderings_sorted, sortRenderings_stable,
    by decide, by decide⟩

/-- C3: in every concordance entry produced by the builder, frequency
equals the length of the occurrences list and no entry with frequency zero
exists; the invariant still holds in the final output, after the
rendering-attachment and finalization passes, which do not modify frequency
or occurrences. -/
theorem c3_frequency_invariant (testament : Testament) (files : List SourceBookFile)
    (projects : List (PyStr × List AlignFileIn)) (lem : PyStr) (e : ConcEntryF)
    (h : (lem, e) ∈ build_concordance testament files projects) :
    e.frequency = e.occurrences.length ∧ 0 < e.frequency :=
  build_concordance_inv testament files projects (lem, e) h

/-- Witness for C3 on a concrete source book. -/
theorem c3_frequency_invariant_witness :
    ∃ q : PyStr × ConcEntryF,
      q ∈ build_concordance Testament.nt collideFiles [] ∧
      (q.2.frequency = q.2.occurrences.length ∧ 0 < q.2.frequency) := by
  cases hl : build_concordance Testament.nt collideFiles [] with
  | nil => exact absurd hl (by decide)
  | cons p rest =>
    have hmem : p ∈ build_concordance Testament.nt collideFiles [] := by
      rw [hl]
      exact List.mem_cons_self _ _
    exact ⟨p, List.mem_cons_self _ _,
      c3_frequency_invariant Testament.nt collideFiles [] p.1 p.2 hmem⟩

/-- C6: in the generated index, every project entry's stats.alignmentCount
equals the sum of alignmentCount over that project's books list, whose
entries are obtained by re-reading the just-written per-book alignment
files (the length of each file's records array). -/
theorem c6_index_sum (dbs : List (Option GoodDb)) (idx : List (PyStr × ProjectEntry))
    (h1 : mainExport dbs = Except.ok idx) (pid : PyStr) (pe : ProjectEntry)
    (h2 : (pid, pe) ∈ idx) :
    pe.stats.alignmentCount = (pe.books.map (fun b => b.alignmentCount)).sum := by
  unfold mainExport at h1
  rcases hrb : runBatch dbs initialBatch with ⟨st, oe⟩
  rw [hrb] at h1
  cases oe with
  | none =>
    simp only [Except.ok.injEq] at h1
    have hmem : (pid, pe) ∈ (runBatch dbs initialBatch).1.projects := by
      rw [hrb]
      show (pid, pe) ∈ st.projects
      rw [h1]
      exact h2
    exact runBatch_projects_sum dbs initialBatch (fun p hp => nomatch hp) (pid, pe) hmem
  | some e => simp at h1

/-- Witness for C6 on the fixture database. -/
theorem c6_index_sum_witness :
    ∃ pe : ProjectEntry,
      alistFind (runBatch [some demoDb] initialBatch).1.projects (pstr "testproject")
        = some pe ∧
      pe.stats.alignmentCount = (pe.books.map (fun b => b.alignmentCount)).sum := by
  cases hf : alistFind (runBatch [some demoDb] initialBatch).1.projects
      (pstr "testproject") with
  | none => exact absurd hf (by decide)
  | some pe =>
    refine ⟨pe, rfl, ?_⟩
    exact c6_index_sum [some demoDb] (runBatch [some demoDb] initialBatch).1.projects rfl
      (pstr "testproject") pe (alistFind_mem hf)

/-- C7 as stated is false: the per-database loop body is a try/finally with
no except clause, so a database that raises on its first query aborts the
whole batch.  With a failing database first, the batch errors and the good
database behind it is never exported, although it exports fine alone. -/
theorem c7_counterexample :
    mainExport [none, some demoDb] = Except.error (pstr "database error") ∧
    (mainExport [some demoDb]).toOption.isSome = true :=
  ⟨rfl, rfl⟩

/-- C7 amended: an exception while processing one database propagates: the
batch stops at the first failing database, the remaining databases are not
processed, and no index is written. -/
theorem c7_batch_aborts (pre rest : List (Option GoodDb))
    (hpre : ∀ d ∈ pre, d.isSome = true) :
    mainExport (pre ++ none :: rest) = Except.error (pstr "database error") := by
  unfold mainExport
  have h := runBatch_error_of_bad pre rest initialBatch hpre
  rcases hrb : runBatch (pre ++ none :: rest) initialBatch with ⟨st, oe⟩
  rw [hrb] at h
  cases oe with
  | none => simp at h
  | some e =>
    simp only [Option.some.injEq] at h
    simp [h]

/-- Witness for C7 with one good database before the failing one. -/
theorem c7_batch_aborts_witness :
    (∀ d ∈ [some demoDb], d.isSome = true) ∧
    mainExport ([some demoDb] ++ none :: []) = Except.error (pstr "database error") :=
  ⟨by decide, c7_batch_aborts [some demoDb] [] (by decide)⟩

/-- C8: within one batch the shared source corpus is written at most once;
once the sources_exported flag is set every later project skips the source
export and writes nothing to the shared folder; running the text export
again with the flag still true writes no source files; and re-deriving the
per-project target and alignment outputs from an unchanged database yields
identical values. -/
theorem c8_source_export_once (dbs : List (Option GoodDb)) :
    (runBatch dbs initialBatch).1.sourceWrites.length ≤ 1 ∧
    (∀ st : BatchState, st.sources_exported = true →
      (runBatch dbs st).1.sourceWrites = st.sourceWrites) ∧
    (∀ db : GoodDb,
      (export_source_text db ((export_source_text db false).2)).1 = none ∧
      export_target_text db = export_target_text db ∧
      export_alignments db = export_alignments db) := by
  refine ⟨runBatch_writes_le_one dbs, ?_, ?_⟩
  · intro st hst
    exact (runBatch_absorb dbs st hst).1
  · intro db
    refine ⟨?_, rfl, rfl⟩
    rw [export_source_text_flag db false, export_source_text_skip db]

/-- Witness for C8 on a two-database batch of the fixture database. -/
theorem c8_source_export_once_witness :
    (runBatch [some demoDb, some demoDb] initialBatch).1.sourceWrites.length ≤ 1 ∧
    (runBatch [some demoDb] (BatchState.mk true [] [])).1.sourceWrites = [] ∧
    (export_source_text demoDb ((export_source_text demoDb false).2)).1 = none := by
  have h := c8_source_export_once [some demoDb, some demoDb]
  exact ⟨h.1, (c8_source_export_once [some demoDb]).2.1 ⟨true, [], []⟩ rfl,
    (h.2.2 demoDb).1⟩

/-- C9 as stated is false: the projectId slug is derived from the corpus
short name column, not from the full display name.  The fixture database
has the single target corpus row with full name Test Project Full Name and
short name TestProject; the exported index is keyed test-project-full-name
by the claim, but the code keys it testproject. -/
theorem c9_counterexample :
    demoDb.corpora.map (fun c => (c.side, c.full_name))
      = [(pstr "targets", some (pstr "Test Project Full Name"))] ∧
    (get_project_info demoDb).projectId = pstr "testproject" ∧
    alistFind (runBatch [some demoDb] initialBatch).1.projects
      (pstr "test-project-full-name") = none :=
  ⟨by decide, by decide, by decide⟩

/-- C9 amended: the projectId slug is derived deterministically from the
short name column of the first target-side corpus row (lowercased, spaces
to hyphens, parentheses and commas removed), not from the database file
name and not from the full display name; the fixture scenario exports
index stats alignmentCount 2 under the key testproject with zero unmatched
links. -/
theorem c9_slug_from_short_name (db : GoodDb) (c : Corpus)
    (h : db.corpora.find? (fun c => (pstr "target").isPrefixOf (pyLower c.side)) = some c) :
    (get_project_info db).projectId = slugify c.name ∧
    (alistFind (runBatch [some demoDb] initialBatch).1.projects (pstr "testproject")).map
        (fun pe => pe.stats.alignmentCount) = some 2 ∧
    (export_alignments demoDb).stats.unmatchedN = 0 := by
  refine ⟨?_, by decide, by decide⟩
  unfold get_project_info
  rw [h]

/-- Witness for C9 on the fixture database. -/
theorem c9_slug_from_short_name_witness :
    ∃ c : Corpus,
      demoDb.corpora.find? (fun c => (pstr "target").isPrefixOf (pyLower c.side)) = some c ∧
      (get_project_info demoDb).projectId = slugify c.name := by
  cases hf : demoDb.corpora.find? (fun c => (pstr "target").isPrefixOf (pyLower c.side)) with
  | none => exact absurd hf (by decide)
  | some c => exact ⟨c, rfl, (c9_slug_from_short_name demoDb c hf).1⟩

end ScriptureLens.Claims
